import Mathlib

/-!
Verification of the VeChain multi-clause transaction module
(`thor_devkit/transaction.py`).

The definitions below are a shallow embedding of `transaction.py`.
The generic RLP codec (`thor_devkit/rlp.py`) and the cryptographic
primitives (`thor_devkit/cry`) are external collaborators of this module
and are not part of the source tree under verification; the codec kinds
(`NumericKind`, `CompactFixedBlobKind`, `NoneableFixedBlobKind`,
`BlobKind`, `BytesKind`) and the address validator are modelled from the
specification, while the hash, public-key recovery and address-derivation
primitives are kept abstract as parameters (a `Crypto` structure).

Python byte strings are `List Nat` (one `Nat` per byte), Python strings
are `List Char`, Python `None` is `Option.none`, and Python exceptions
are `Except Err`.  Python truthiness tests (`if x:`) on optional byte
strings / strings / lists are modelled explicitly: `none`, the empty
string, the empty list and `0` are falsy.
-/

abbrev Bytes := List Nat

/-- Every entry of a byte string is an actual byte value. -/
def validBytes (b : Bytes) : Prop := ∀ x ∈ b, x < 256

instance : DecidablePred validBytes := fun b =>
  inferInstanceAs (Decidable (∀ x ∈ b, x < 256))

/-- Errors raised by the transaction module and its collaborators. -/
inductive Err where
  | serializeError
  | decodeError
  | untrimmedReservedField
  | invalidDelegateAddress
  deriving DecidableEq, Repr

instance {e a : Type} [DecidableEq e] [DecidableEq a] : DecidableEq (Except e a) :=
  fun x y =>
    match x, y with
    | .ok v, .ok w =>
      if h : v = w then .isTrue (by rw [h]) else .isFalse (by simp [h])
    | .error v, .error w =>
      if h : v = w then .isTrue (by rw [h]) else .isFalse (by simp [h])
    | .ok _, .error _ => .isFalse (by simp)
    | .error _, .ok _ => .isFalse (by simp)

/-- Python truthiness of an optional int (`None` and `0` are falsy). -/
def optNatTruthy : Option Nat → Bool
  | none => false
  | some n => n != 0

/-- Python truthiness of an optional list / string (`None` and empty are falsy). -/
def optListTruthy {α : Type} : Option (List α) → Bool
  | none => false
  | some l => !l.isEmpty

/-- Value of one lowercase hexadecimal digit.

Modelled from the spec: hex-string handling of the external codec; the
canonical representation produced by the collaborators is lowercase. -/
def hexVal (c : Char) : Option Nat :=
  if 48 ≤ c.toNat ∧ c.toNat ≤ 57 then some (c.toNat - 48)
  else if 97 ≤ c.toNat ∧ c.toNat ≤ 102 then some (c.toNat - 87)
  else none

/-- The lowercase hexadecimal digit of a value below 16. -/
def toHexDigit (n : Nat) : Char :=
  match n with
  | 0 => '0' | 1 => '1' | 2 => '2' | 3 => '3' | 4 => '4'
  | 5 => '5' | 6 => '6' | 7 => '7' | 8 => '8' | 9 => '9'
  | 10 => 'a' | 11 => 'b' | 12 => 'c' | 13 => 'd' | 14 => 'e'
  | _ => 'f'

/-- Python `bytes.hex()`: lowercase hex digits, two per byte. -/
def bytesToHex : Bytes → List Char
  | [] => []
  | b :: bs => toHexDigit (b / 16) :: toHexDigit (b % 16) :: bytesToHex bs

/-- Python `bytes.fromhex` on a lowercase even-length hex string. -/
def hexToBytes : List Char → Option Bytes
  | [] => some []
  | [_] => none
  | c1 :: c2 :: rest => do
      let hi ← hexVal c1
      let lo ← hexVal c2
      let bs ← hexToBytes rest
      pure ((hi * 16 + lo) :: bs)

/-- Minimal big-endian byte representation of an unsigned integer
(`0` encodes to the empty byte string).

Modelled from the spec: the codec's "fixed-width unsigned big-endian
integer" kind; minimality is forced by the reserved-field rule that the
encoding of `features = 0` has zero length. -/
def numSerializeAux : Nat → Nat → Bytes
  | 0, _ => []
  | fuel + 1, n => if n = 0 then [] else numSerializeAux fuel (n / 256) ++ [n % 256]

def numSerialize (n : Nat) : Bytes := numSerializeAux n n

/-- Big-endian interpretation of a byte string as an unsigned integer. -/
def numDeserializeNat (b : Bytes) : Nat :=
  b.foldl (fun a x => a * 256 + x) 0

/-- Modelled from the spec: `NumericKind(N).serialize` validates that the
value fits in `N` bytes. -/
def NumericKind_serialize (N : Nat) (n : Nat) : Except Err Bytes :=
  let b := numSerialize n
  if b.length > N then .error .serializeError else .ok b

/-- Modelled from the spec: `NumericKind(N).deserialize` rejects overlong
input. -/
def NumericKind_deserialize (N : Nat) (b : Bytes) : Except Err Nat :=
  if b.length > N then .error .decodeError else .ok (numDeserializeNat b)

/-- Modelled from the spec: `CompactFixedBlobKind(N).serialize` turns a
`'0x'`-prefixed hex string of exactly `N` bytes into its byte form with
leading zero bytes stripped (the compact representation). -/
def CompactFixedBlob_serialize (N : Nat) (s : List Char) : Except Err Bytes :=
  match s with
  | '0' :: 'x' :: rest =>
    match hexToBytes rest with
    | some bs => if bs.length = N then .ok (bs.dropWhile (· = 0)) else .error .serializeError
    | none => .error .serializeError
  | _ => .error .serializeError

/-- Modelled from the spec: `CompactFixedBlobKind(N).deserialize` pads the
compact byte form back to `N` bytes and renders it as a `'0x'` hex string. -/
def CompactFixedBlob_deserialize (N : Nat) (b : Bytes) : Except Err (List Char) :=
  if b.length > N then .error .decodeError
  else .ok ('0' :: 'x' :: bytesToHex (List.replicate (N - b.length) 0 ++ b))

/-- Modelled from the spec: `NoneableFixedBlobKind(N).serialize`; absence
encodes to the empty byte string. -/
def NoneableFixedBlob_serialize (N : Nat) : Option (List Char) → Except Err Bytes
  | none => .ok []
  | some s =>
    match s with
    | '0' :: 'x' :: rest =>
      match hexToBytes rest with
      | some bs => if bs.length = N then .ok bs else .error .serializeError
      | none => .error .serializeError
    | _ => .error .serializeError

/-- Modelled from the spec: `NoneableFixedBlobKind(N).deserialize`; the
empty byte string decodes to absence. -/
def NoneableFixedBlob_deserialize (N : Nat) (b : Bytes) : Except Err (Option (List Char)) :=
  if b.length = 0 then .ok none
  else if b.length = N then .ok (some ('0' :: 'x' :: bytesToHex b))
  else .error .decodeError

/-- Modelled from the spec: `BlobKind.serialize` turns a `'0x'`-prefixed
hex string into bytes. -/
def Blob_serialize (s : List Char) : Except Err Bytes :=
  match s with
  | '0' :: 'x' :: rest =>
    match hexToBytes rest with
    | some bs => .ok bs
    | none => .error .serializeError
  | _ => .error .serializeError

/-- Modelled from the spec: `BlobKind.deserialize` renders bytes as a
`'0x'`-prefixed lowercase hex string. -/
def Blob_deserialize (b : Bytes) : List Char :=
  '0' :: 'x' :: bytesToHex b

/-- Modelled from the spec: `address.is_address`, the well-formed-address
format validator (`'0x'` followed by 40 hex digits). -/
def is_address (s : List Char) : Bool :=
  match s with
  | '0' :: 'x' :: rest => rest.length == 40 && rest.all (fun c => (hexVal c).isSome)
  | _ => false

/-- `Clause` of `transaction.py`: destination (or `None` for contract
creation), VET value, and a `'0x...'` data string.  Its `to_dict`
projection has exactly these three fields, so the clause itself stands
for its dict. -/
structure Clause where
  «to» : Option (List Char)
  value : Nat
  data : List Char
  deriving DecidableEq, Repr

/-- `Reserved` of `transaction.py`. -/
structure Reserved where
  features : Option Nat
  unused : Option (List Bytes)
  deriving DecidableEq, Repr

/-- `Body` of `transaction.py`. -/
structure Body where
  chain_tag : Nat
  block_ref : List Char
  expiration : Nat
  clauses : List Clause
  gas_price_coef : Nat
  gas : Nat
  depends_on : Option (List Char)
  nonce : Nat
  reserved : Option Reserved
  deriving DecidableEq, Repr

/-- The `reserved` sub-dict built by `Body.to_dict`: a key is present
(`some`) exactly when the corresponding attribute is truthy. -/
structure ReservedDict where
  features : Option Nat
  unused : Option (List Bytes)
  deriving DecidableEq, Repr

/-- The dict `Body.to_dict` builds for a present `Reserved`
(`if self.reserved.features: ...` / `if self.reserved.unused: ...`). -/
def reservedDictOf (r : Reserved) : ReservedDict :=
  { features := if optNatTruthy r.features then r.features else none
    unused := if optListTruthy r.unused then r.unused else none }

/-- The canonical dict projection of a `Body`; the `reserved` key is
present exactly when `self.reserved` is (a Python object is truthy). -/
structure BodyDict where
  chainTag : Nat
  blockRef : List Char
  expiration : Nat
  clauses : List Clause
  gasPriceCoef : Nat
  gas : Nat
  dependsOn : Option (List Char)
  nonce : Nat
  reserved : Option ReservedDict
  deriving DecidableEq, Repr

/-- `Body.to_dict` of `transaction.py`. -/
def Body.to_dict (b : Body) : BodyDict :=
  { chainTag := b.chain_tag
    blockRef := b.block_ref
    expiration := b.expiration
    clauses := b.clauses
    gasPriceCoef := b.gas_price_coef
    gas := b.gas
    dependsOn := b.depends_on
    nonce := b.nonce
    reserved := b.reserved.map reservedDictOf }

/-- `Transaction` of `transaction.py`: a body plus an optional signature
(set after construction via `set_signature`). -/
structure Transaction where
  body : Body
  signature : Option Bytes := none
  deriving DecidableEq, Repr

/-- `Transaction.__eq__`: signatures equal and canonical body dict
projections equal. -/
def Transaction.eq (t1 t2 : Transaction) : Prop :=
  t1.signature = t2.signature ∧ t1.body.to_dict = t2.body.to_dict

instance (t1 t2 : Transaction) : Decidable (Transaction.eq t1 t2) :=
  inferInstanceAs (Decidable (_ ∧ _))

def Z_GAS : Nat := 4
def NZ_GAS : Nat := 68
def TX_GAS : Nat := 5000
def CLAUSE_GAS : Nat := 16000
def CLAUSE_CONTRACT_CREATION : Nat := 48000
def DELEGATED_MASK : Nat := 1

/-- The loop of `data_gas`: `for x in range(2, len(data), 2)` tests
`data[x] == '0' and data[x+1] == '0'`.  Python's `and` short-circuits,
so `data[x+1]` is read only when `data[x]` is `'0'`: on a suffix with a
single remaining character the out-of-range read (Python `IndexError`,
modelled as `none`) happens only when that character is `'0'`; otherwise
the `else` branch adds `NZ_GAS` and the loop ends.  When two characters
remain, both indices are in range and the conjunction is as written. -/
def dataGasLoop (acc : Nat) : List Char → Option Nat
  | [] => some acc
  | [c] => if c = '0' then none else some (acc + NZ_GAS)
  | c1 :: c2 :: rest =>
      dataGasLoop (acc + if c1 = '0' ∧ c2 = '0' then Z_GAS else NZ_GAS) rest

/-- `data_gas` of `transaction.py` (partial: `none` models the
out-of-range read of `data[x+1]`, reached exactly when the input has odd
length at least 3 and its final character is `'0'`). -/
def data_gas (data : List Char) : Option Nat :=
  dataGasLoop 0 (data.drop 2)

/-- Number of `"00"` hex-digit pairs in a character list read two at a
time (specification-side counting function). -/
def countZeroPairs : List Char → Nat
  | c1 :: c2 :: rest => (if c1 = '0' ∧ c2 = '0' then 1 else 0) + countZeroPairs rest
  | _ => 0

/-- The per-clause accumulation loop of `intrinsic_gas`; `clause.to` is
tested for Python truthiness (`None` and the empty string are falsy). -/
def intrinsicGasLoop (acc : Nat) : List Clause → Option Nat
  | [] => some acc
  | c :: rest =>
    match data_gas c.data with
    | none => none
    | some dg =>
        intrinsicGasLoop
          (acc + ((if optListTruthy c.«to» then CLAUSE_GAS else CLAUSE_CONTRACT_CREATION) + dg))
          rest

/-- `intrinsic_gas` of `transaction.py`. -/
def intrinsic_gas (clauses : List Clause) : Option Nat :=
  if clauses.length = 0 then some (TX_GAS + CLAUSE_GAS)
  else intrinsicGasLoop TX_GAS clauses

/-- Structured value handed to / produced by the external codec.  The
byte-level layout of such a value is the codec collaborator's business
(spec §6) and is abstracted by `Crypto.rlpBytes`. -/
inductive Item where
  | bytes (b : Bytes)
  | list (items : List Item)

/-- Right-strip of the reserved candidate list: everything after the
right-most element of non-zero length is dropped (the index scan of
`_encode_reserved`). -/
def rstripEmpty (m : List Bytes) : List Bytes :=
  (m.reverse.dropWhile (fun x => x.isEmpty)).reverse

/-- `Transaction._encode_reserved`: if the projected reserved dict is
falsy (absent or empty) a blank `Reserved(None, None)` is used, otherwise
the body's own `Reserved`; then `[FeaturesKind.serialize(features or 0)]
++ (unused or [])` is right-stripped of empty elements. -/
def Transaction.encode_reserved (t : Transaction) : Except Err (List Bytes) :=
  let rdict := t.body.to_dict.reserved
  let reserved : Reserved :=
    if rdict = none ∨ rdict = some ⟨none, none⟩ then ⟨none, none⟩
    else t.body.reserved.getD ⟨none, none⟩
  do
    let f := reserved.features.getD 0
    let l := reserved.unused.getD []
    let ser ← NumericKind_serialize 4 f
    .ok (rstripEmpty (ser :: l))

/-- Encoding of one clause under the clause schema `[to, value, data]`. -/
def encodeClause (c : Clause) : Except Err Item := do
  let dst ← NoneableFixedBlob_serialize 20 c.«to»
  let v ← NumericKind_serialize 32 c.value
  let d ← Blob_serialize c.data
  .ok (Item.list [Item.bytes dst, Item.bytes v, Item.bytes d])

/-- The nine unsigned-schema fields of a transaction, in wire order
(`chainTag, blockRef, expiration, clauses, gasPriceCoef, gas, dependsOn,
nonce, reserved`), with `reserved` replaced by its canonical list. -/
def encodeBodyItems (t : Transaction) : Except Err (List Item) := do
  let rl ← t.encode_reserved
  let ct ← NumericKind_serialize 1 t.body.chain_tag
  let br ← CompactFixedBlob_serialize 8 t.body.block_ref
  let ex ← NumericKind_serialize 4 t.body.expiration
  let cls ← t.body.clauses.mapM encodeClause
  let gpc ← NumericKind_serialize 1 t.body.gas_price_coef
  let g ← NumericKind_serialize 8 t.body.gas
  let dep ← NoneableFixedBlob_serialize 32 t.body.depends_on
  let non ← NumericKind_serialize 8 t.body.nonce
  .ok [Item.bytes ct, Item.bytes br, Item.bytes ex, Item.list cls, Item.bytes gpc,
       Item.bytes g, Item.bytes dep, Item.bytes non, Item.list (rl.map Item.bytes)]

/-- `Transaction.encode`: signed schema (the unsigned fields plus the
signature) when the stored signature is truthy, unsigned schema
otherwise. -/
def Transaction.encode (t : Transaction) : Except Err Item := do
  let fields ← encodeBodyItems t
  match t.signature with
  | some s => if s.isEmpty then .ok (Item.list fields) else .ok (Item.list (fields ++ [Item.bytes s]))
  | none => .ok (Item.list fields)

/-- The dict produced by the codec's decode, before `Transaction.decode`
rebuilds the value objects: body fields, the raw reserved list of byte
strings, and the signature when the signed schema was used. -/
structure RawTx where
  chainTag : Nat
  blockRef : List Char
  expiration : Nat
  clauses : List Clause
  gasPriceCoef : Nat
  gas : Nat
  dependsOn : Option (List Char)
  nonce : Nat
  reserved : List Bytes
  signature : Option Bytes
  deriving DecidableEq, Repr

/-- Decoding of one clause wire value. -/
def decodeClause (it : Item) : Except Err Clause :=
  match it with
  | Item.list [Item.bytes t, Item.bytes v, Item.bytes d] => do
    let dst ← NoneableFixedBlob_deserialize 20 t
    let value ← NumericKind_deserialize 32 v
    .ok ⟨dst, value, Blob_deserialize d⟩
  | _ => .error .decodeError

/-- A reserved-list element must be a plain byte string. -/
def itemBytes : Item → Except Err Bytes
  | Item.bytes b => .ok b
  | _ => .error .decodeError

/-- Field-by-field decode of the nine unsigned-schema wire values. -/
def parseCore (ct br ex : Bytes) (cls : List Item) (gpc g dep non : Bytes)
    (rs : List Item) (sig : Option Bytes) : Except Err RawTx := do
  let chainTag ← NumericKind_deserialize 1 ct
  let blockRef ← CompactFixedBlob_deserialize 8 br
  let expiration ← NumericKind_deserialize 4 ex
  let clauses ← cls.mapM decodeClause
  let gasPriceCoef ← NumericKind_deserialize 1 gpc
  let gas ← NumericKind_deserialize 8 g
  let dependsOn ← NoneableFixedBlob_deserialize 32 dep
  let nonce ← NumericKind_deserialize 8 non
  let reserved ← rs.mapM itemBytes
  .ok ⟨chainTag, blockRef, expiration, clauses, gasPriceCoef, gas, dependsOn, nonce,
       reserved, sig⟩

/-- Schema-level decode: the wire value must be the 9-element unsigned
list or the 10-element signed list; anything else is a codec
`DecodeError`. -/
def parseRawTx (it : Item) (unsigned : Bool) : Except Err RawTx :=
  match unsigned, it with
  | true, Item.list [Item.bytes ct, Item.bytes br, Item.bytes ex, Item.list cls,
      Item.bytes gpc, Item.bytes g, Item.bytes dep, Item.bytes non, Item.list rs] =>
      parseCore ct br ex cls gpc g dep non rs none
  | false, Item.list [Item.bytes ct, Item.bytes br, Item.bytes ex, Item.list cls,
      Item.bytes gpc, Item.bytes g, Item.bytes dep, Item.bytes non, Item.list rs,
      Item.bytes sg] =>
      parseCore ct br ex cls gpc g dep non rs (some sg)
  | _, _ => .error .decodeError

/-- The reserved-list processing of `Transaction.decode`: an empty list
yields no `Reserved`; a non-empty list whose last element has zero length
is the untrimmed hard error; otherwise element 0 decodes as `features`
and elements `1..` (if any) become `unused`. -/
def decodeReservedList (r : List Bytes) : Except Err (Option Reserved) :=
  match r with
  | [] => .ok none
  | x :: xs =>
    if ((x :: xs).getLastD []).isEmpty then .error .untrimmedReservedField
    else do
      let features ← NumericKind_deserialize 4 x
      .ok (some ⟨some features, if xs.isEmpty then none else some xs⟩)

/-- `Transaction.decode`: schema decode, reserved-list reconstruction,
body rebuild, then signature attachment when the decoded signature is
truthy (`if sig:`). -/
def Transaction.decode (it : Item) (unsigned : Bool) : Except Err Transaction := do
  let raw ← parseRawTx it unsigned
  let reserved ← decodeReservedList raw.reserved
  let body : Body :=
    ⟨raw.chainTag, raw.blockRef, raw.expiration, raw.clauses, raw.gasPriceCoef,
     raw.gas, raw.dependsOn, raw.nonce, reserved⟩
  match raw.signature with
  | some s => if s.isEmpty then .ok ⟨body, none⟩ else .ok ⟨body, some s⟩
  | none => .ok ⟨body, none⟩

/-- `decode(encode(tx), unsigned = (signature absent))`. -/
def roundTrip (t : Transaction) : Except Err Transaction :=
  (t.encode).bind (fun it => Transaction.decode it t.signature.isNone)

/-- The abstract cryptographic collaborators (spec §6): the hash
primitive, the codec's byte-level rendering of a structured value, the
public-key recovery primitive (`none` models a recovery error), and the
address derivation (`none` models a derivation error). -/
structure Crypto where
  blake2b256 : List Bytes → Bytes
  rlpBytes : Item → Bytes
  recover : Bytes → Bytes → Option Bytes
  public_key_to_address : Bytes → Option Bytes

/-- `Transaction.get_signing_hash`: hash of the unsigned-schema encoding
of the canonicalized body dict; when `delegate_for` is truthy it is
validated as an address (else `InvalidDelegateAddress`) and folded into a
second hash. -/
def Transaction.get_signing_hash (t : Transaction) (cr : Crypto)
    (delegate_for : Option (List Char)) : Except Err Bytes := do
  let fields ← encodeBodyItems t
  let buff := cr.rlpBytes (Item.list fields)
  let h := cr.blake2b256 [buff]
  match delegate_for with
  | some d =>
    if d.isEmpty then .ok h
    else if is_address d then .ok (cr.blake2b256 [h, (hexToBytes (d.drop 2)).getD []])
    else .error .invalidDelegateAddress
  | none => .ok h

/-- `Transaction.is_delegated`, via the truthiness chain on
`body.to_dict()`. -/
def Transaction.is_delegated (t : Transaction) : Bool :=
  match t.body.to_dict.reserved with
  | none => false
  | some rd =>
    if rd = ⟨none, none⟩ then false
    else
      match rd.features with
      | none => false
      | some f => if f = 0 then false else (f &&& DELEGATED_MASK) == DELEGATED_MASK

/-- `Transaction._signature_valid`: the signature must be truthy and of
the expected length (130 bytes when delegated, 65 otherwise). -/
def Transaction.signature_valid (t : Transaction) : Bool :=
  let expected := if t.is_delegated then 65 * 2 else 65
  match t.signature with
  | none => false
  | some s => if s.isEmpty then false else s.length == expected

/-- `Transaction.get_origin`; every failure inside the `try` block
(encoding, recovery, address derivation) yields `None`. -/
def Transaction.get_origin (t : Transaction) (cr : Crypto) : Option (List Char) :=
  if !t.signature_valid then none
  else
    match t.get_signing_hash cr none with
    | .error _ => none
    | .ok h =>
      match cr.recover h ((t.signature.getD []).take 65) with
      | none => none
      | some pk =>
        match cr.public_key_to_address pk with
        | none => none
        | some addr => some ('0' :: 'x' :: bytesToHex addr)

/-- `Transaction.get_delegator`; recomputes the signing hash with
`delegate_for = origin` and recovers from signature bytes `[65:]`. -/
def Transaction.get_delegator (t : Transaction) (cr : Crypto) : Option (List Char) :=
  if !t.is_delegated then none
  else if !t.signature_valid then none
  else
    match t.get_origin cr with
    | none => none
    | some origin =>
      match t.get_signing_hash cr (some origin) with
      | .error _ => none
      | .ok h =>
        match cr.recover h ((t.signature.getD []).drop 65) with
        | none => none
        | some pk =>
          match cr.public_key_to_address pk with
          | none => none
          | some addr => some ('0' :: 'x' :: bytesToHex addr)

/-- A `'0x'`-prefixed lowercase hex string denoting exactly `N` bytes. -/
def wfHexFixed (N : Nat) (s : List Char) : Bool :=
  match s with
  | '0' :: 'x' :: rest =>
    match hexToBytes rest with
    | some bs => bs.length == N
    | none => false
  | _ => false

/-- A `'0x'`-prefixed lowercase hex string of any even byte count. -/
def wfHexData (s : List Char) : Bool :=
  match s with
  | '0' :: 'x' :: rest => (hexToBytes rest).isSome
  | _ => false

/-- A well-formed clause: destination absent or a 20-byte address string,
value within 32 bytes, data a well-formed hex string. -/
def Clause.wf (c : Clause) : Prop :=
  (c.«to» = none ∨ ∃ s, c.«to» = some s ∧ wfHexFixed 20 s = true) ∧
  c.value < 256 ^ 32 ∧ wfHexData c.data = true

instance (c : Clause) : Decidable c.wf :=
  inferInstanceAs (Decidable (_ ∧ _))

/-- A well-formed body: every field within its wire width and every hex
string canonical (spec §3). -/
def Body.wf (b : Body) : Prop :=
  b.chain_tag < 256 ∧ wfHexFixed 8 b.block_ref = true ∧ b.expiration < 256 ^ 4 ∧
  (∀ c ∈ b.clauses, c.wf) ∧ b.gas_price_coef < 256 ∧ b.gas < 256 ^ 8 ∧
  (b.depends_on = none ∨ ∃ s, b.depends_on = some s ∧ wfHexFixed 32 s = true) ∧
  b.nonce < 256 ^ 8 ∧
  (∀ r, b.reserved = some r → ∀ f, r.features = some f → f < 256 ^ 4)

instance (b : Body) : Decidable b.wf :=
  inferInstanceAs (Decidable (_ ∧ _))

/-- A well-formed transaction: well-formed body, and a stored signature
(if any) that is non-empty (the module stores any bytes, but an empty
byte string is falsy everywhere it is consulted). -/
def Transaction.wf (t : Transaction) : Prop :=
  t.body.wf ∧ t.signature ≠ some []

instance (t : Transaction) : Decidable t.wf :=
  inferInstanceAs (Decidable (_ ∧ _))

/-- The reserved values whose canonical wire list reconstructs the same
canonical dict projection: absent; or truthy `features` with `unused`
absent or empty; or a non-empty `unused` whose last element is
non-empty. -/
def reservedOk : Option Reserved → Prop
  | none => True
  | some r =>
      (optNatTruthy r.features = true ∧ (r.unused = none ∨ r.unused = some []))
      ∨ (optListTruthy r.unused = true ∧ ((r.unused.getD []).getLastD []).isEmpty = false)

instance (r : Option Reserved) : Decidable (reservedOk r) := by
  unfold reservedOk
  cases r
  case none => exact inferInstanceAs (Decidable True)
  case some => exact inferInstanceAs (Decidable (_ ∨ _))

/-- `Transaction.get_id`: `'0x' + blake2b256(signing_hash, origin).hex()`
under a valid signature, `None` on any failure. -/
def Transaction.get_id (t : Transaction) (cr : Crypto) : Option (List Char) :=
  if !t.signature_valid then none
  else
    match t.get_signing_hash cr none with
    | .error _ => none
    | .ok h =>
      match cr.recover h ((t.signature.getD []).take 65) with
      | none => none
      | some pk =>
        match cr.public_key_to_address pk with
        | none => none
        | some origin => some ('0' :: 'x' :: bytesToHex (cr.blake2b256 [h, origin]))

/-- A concrete 20-byte address string used by concrete instances. -/
def addr1 : List Char := "0x7567d83b7b8d80addcb281a71d54fc7b3364ffed".toList

/-- A concrete well-formed body with one regular clause and no reserved. -/
def baseBody : Body :=
  { chain_tag := 1
    block_ref := "0x00000000aabbccdd".toList
    expiration := 32
    clauses := [⟨some addr1, 10000, "0x000000606060".toList⟩]
    gas_price_coef := 128
    gas := 21000
    depends_on := none
    nonce := 12345678
    reserved := none }

/-- A concrete unsigned transaction. -/
def txPlain : Transaction := { body := baseBody }

/-- A concrete transaction whose reserved is `Reserved(features=0, unused=[])`. -/
def txEmptyReserved : Transaction :=
  { body := { baseBody with reserved := some ⟨some 0, some []⟩ } }

/-- A concrete delegated transaction (features = 1) with a 130-byte
signature. -/
def txDelegated : Transaction :=
  { body := { baseBody with reserved := some ⟨some 1, none⟩ }
    signature := some (List.replicate 130 7) }

/-- A concrete well-formed transaction with three clauses, a reserved
field and a 65-byte signature. -/
def txThree : Transaction :=
  { body :=
    { baseBody with
      clauses :=
        [⟨some addr1, 10000, "0x000000606060".toList⟩,
         ⟨none, 0, "0x".toList⟩,
         ⟨some addr1, 2, "0x00".toList⟩]
      reserved := some ⟨some 1, some [[1, 2], [3]]⟩ }
    signature := some (List.replicate 65 7) }

/-- Concrete instantiation of the abstract collaborators, used to
evaluate the parametric theorems on explicit inputs. -/
def dummyCrypto : Crypto :=
  { blake2b256 := fun bufs => bufs.foldl (· ++ ·) []
    rlpBytes := fun _ => []
    recover := fun h s => some (h ++ s)
    public_key_to_address := fun pk => some (pk.take 20) }

/-- A second concrete collaborator instantiation whose address
derivation only accepts 65-byte keys, so the second (delegator-side)
derivation fails on concrete inputs. -/
def dummyCrypto2 : Crypto :=
  { blake2b256 := fun bufs => bufs.foldl (· ++ ·) []
    rlpBytes := fun _ => []
    recover := fun h s => some (h ++ s)
    public_key_to_address := fun pk => if pk.length == 65 then some (pk.take 20) else none }

/-- A concrete wire value that parses under the unsigned schema with an
empty reserved list. -/
def itemEmptyReserved : Item :=
  Item.list [Item.bytes [1], Item.bytes [], Item.bytes [], Item.list [], Item.bytes [],
             Item.bytes [], Item.bytes [], Item.bytes [], Item.list []]

/-- A concrete wire value whose reserved list is untrimmed (single
zero-length element). -/
def itemUntrimmed : Item :=
  Item.list [Item.bytes [1], Item.bytes [], Item.bytes [], Item.list [], Item.bytes [],
             Item.bytes [], Item.bytes [], Item.bytes [], Item.list [Item.bytes []]]

/-- A minimal well-formed unsigned transaction whose encoding is easy to
evaluate. -/
def txMinimal : Transaction :=
  { body := { chain_tag := 1, block_ref := "0x0000000000000000".toList, expiration := 0,
              clauses := [], gas_price_coef := 0, gas := 0, depends_on := none,
              nonce := 0, reserved := none } }

/-! ### Hexadecimal helper lemmas -/

theorem hexVal_lt_16 (c : Char) (n : Nat) (h : hexVal c = some n) : n < 16 := by
  unfold hexVal at h
  split at h
  · simp only [Option.some.injEq] at h; omega
  · split at h
    · simp only [Option.some.injEq] at h; omega
    · exact absurd h (by simp)

theorem hexVal_toHexDigit (n : Nat) (h : n < 16) : hexVal (toHexDigit n) = some n := by
  interval_cases n <;> decide

theorem toHexDigit_hexVal (c : Char) (n : Nat) (h : hexVal c = some n) :
    toHexDigit n = c := by
  unfold hexVal at h
  have hc := Char.ofNat_toNat c
  split at h
  · rename_i hd
    simp only [Option.some.injEq] at h
    have he : c.toNat = 48 + n := by omega
    rw [he] at hc
    rw [← hc]
    have hn : n < 10 := by omega
    interval_cases n <;> decide
  · split at h
    · rename_i hd
      simp only [Option.some.injEq] at h
      have he : c.toNat = 87 + n := by omega
      rw [he] at hc
      rw [← hc]
      have hn : 10 ≤ n ∧ n < 16 := by omega
      obtain ⟨h10, h16⟩ := hn
      interval_cases n <;> decide
    · exact absurd h (by simp)

theorem hexToBytes_bytesToHex (bs : Bytes) (h : validBytes bs) :
    hexToBytes (bytesToHex bs) = some bs := by
  induction bs with
  | nil => rfl
  | cons b rest ih =>
    have hb : b < 256 := h b (List.mem_cons_self _ _)
    have hrest : validBytes rest := fun x hx => h x (List.mem_cons_of_mem _ hx)
    have h1 : b / 16 < 16 := Nat.div_lt_of_lt_mul (by omega)
    have h2 : b % 16 < 16 := Nat.mod_lt _ (by norm_num)
    simp only [bytesToHex, hexToBytes, hexVal_toHexDigit _ h1, hexVal_toHexDigit _ h2,
      ih hrest, Option.bind_eq_bind, Option.some_bind]
    have : b / 16 * 16 + b % 16 = b := by omega
    simp [this]

theorem bytesToHex_hexToBytes (s : List Char) (bs : Bytes) (h : hexToBytes s = some bs) :
    bytesToHex bs = s ∧ validBytes bs := by
  induction s using hexToBytes.induct generalizing bs with
  | case1 =>
    simp only [hexToBytes, Option.some.injEq] at h
    subst h
    exact ⟨rfl, by intro x hx; simp at hx⟩
  | case2 c => simp [hexToBytes] at h
  | case3 c1 c2 rest ih =>
    simp only [hexToBytes, Option.bind_eq_bind, bind, Option.bind_eq_some] at h
    obtain ⟨hi, hhi, lo, hlo, bs2, hbs2, hpure⟩ := h
    simp only [pure, Option.some.injEq] at hpure
    subst hpure
    obtain ⟨hrec, hvalid⟩ := ih bs2 hbs2
    have hhi16 := hexVal_lt_16 _ _ hhi
    have hlo16 := hexVal_lt_16 _ _ hlo
    constructor
    · simp only [bytesToHex, hrec]
      have e1 : (hi * 16 + lo) / 16 = hi := by omega
      have e2 : (hi * 16 + lo) % 16 = lo := by omega
      rw [e1, e2, toHexDigit_hexVal _ _ hhi, toHexDigit_hexVal _ _ hlo]
    · intro x hx
      rcases List.mem_cons.mp hx with hx | hx
      · omega
      · exact hvalid x hx

theorem bytesToHex_length (bs : Bytes) : (bytesToHex bs).length = 2 * bs.length := by
  induction bs with
  | nil => rfl
  | cons b rest ih => simp [bytesToHex, ih]; omega

theorem bytesToHex_all_hex (bs : Bytes) (h : validBytes bs) :
    (bytesToHex bs).all (fun c => (hexVal c).isSome) = true := by
  induction bs with
  | nil => rfl
  | cons b rest ih =>
    have hb : b < 256 := h b (List.mem_cons_self _ _)
    have h1 : b / 16 < 16 := Nat.div_lt_of_lt_mul (by omega)
    have h2 : b % 16 < 16 := Nat.mod_lt _ (by norm_num)
    simp [bytesToHex, List.all_cons, hexVal_toHexDigit _ h1, hexVal_toHexDigit _ h2,
      ih (fun x hx => h x (List.mem_cons_of_mem _ hx))]

/-! ### Numeric kind lemmas -/

theorem numSerializeAux_zero (fuel : Nat) : numSerializeAux fuel 0 = [] := by
  cases fuel <;> rfl

theorem numSerializeAux_irrel (f1 : Nat) : ∀ (f2 n : Nat), n ≤ f1 → n ≤ f2 →
    numSerializeAux f1 n = numSerializeAux f2 n := by
  induction f1 with
  | zero =>
    intro f2 n h1 h2
    have : n = 0 := by omega
    subst this
    rw [numSerializeAux_zero, numSerializeAux_zero]
  | succ k ih =>
    intro f2 n h1 h2
    by_cases hz : n = 0
    · subst hz; rw [numSerializeAux_zero, numSerializeAux_zero]
    · cases f2 with
      | zero => omega
      | succ k2 =>
        simp only [numSerializeAux, if_neg hz]
        have hlt : n / 256 < n := Nat.div_lt_self (Nat.pos_of_ne_zero hz) (by norm_num)
        rw [ih k2 (n / 256) (by omega) (by omega)]

theorem numSerialize_unfold (n : Nat) :
    numSerialize n = if n = 0 then [] else numSerialize (n / 256) ++ [n % 256] := by
  by_cases hz : n = 0
  · subst hz; simp [numSerialize, numSerializeAux_zero]
  · rw [if_neg hz]
    unfold numSerialize
    cases hn : n with
    | zero => exact absurd hn hz
    | succ m =>
      simp only [numSerializeAux, if_neg (hn ▸ hz)]
      have hlt : (m + 1) / 256 < m + 1 := Nat.div_lt_self (by omega) (by norm_num)
      rw [numSerializeAux_irrel m ((m + 1) / 256) ((m + 1) / 256) (by omega) (by omega)]

theorem numSerialize_zero : numSerialize 0 = [] := rfl

theorem numSerialize_ne_nil (n : Nat) (h : n ≠ 0) : numSerialize n ≠ [] := by
  rw [numSerialize_unfold]
  simp [h]

theorem numSerialize_length_le (N n : Nat) (h : n < 256 ^ N) :
    (numSerialize n).length ≤ N := by
  induction N generalizing n with
  | zero =>
    simp only [pow_zero, Nat.lt_one_iff] at h
    subst h
    simp [numSerialize_zero]
  | succ k ih =>
    by_cases hz : n = 0
    · subst hz; simp [numSerialize_zero]
    · rw [numSerialize_unfold, if_neg hz]
      have hdiv : n / 256 < 256 ^ k := by
        apply (Nat.div_lt_iff_lt_mul (by norm_num : (0:Nat) < 256)).mpr
        calc n < 256 ^ (k + 1) := h
        _ = 256 ^ k * 256 := by ring
      have := ih _ hdiv
      simp only [List.length_append, List.length_cons, List.length_nil]
      omega

theorem numDeserialize_numSerialize (n : Nat) :
    numDeserializeNat (numSerialize n) = n := by
  induction n using Nat.strong_induction_on with
  | _ n ih =>
    by_cases hz : n = 0
    · subst hz; rw [numSerialize_zero]; rfl
    · rw [numSerialize_unfold, if_neg hz]
      unfold numDeserializeNat
      rw [List.foldl_append]
      have hrec : List.foldl (fun a x => a * 256 + x) 0 (numSerialize (n / 256)) = n / 256 :=
        ih (n / 256) (Nat.div_lt_self (Nat.pos_of_ne_zero hz) (by norm_num))
      simp only [hrec, List.foldl_cons, List.foldl_nil]
      omega

theorem NumericKind_roundtrip (N n : Nat) (h : n < 256 ^ N) :
    NumericKind_serialize N n = .ok (numSerialize n) ∧
    NumericKind_deserialize N (numSerialize n) = .ok n := by
  have hlen := numSerialize_length_le N n h
  constructor
  · unfold NumericKind_serialize
    simp [Nat.not_lt.mpr hlen]
  · unfold NumericKind_deserialize
    simp [Nat.not_lt.mpr hlen, numDeserialize_numSerialize]

/-! ### Right-strip lemmas for the reserved list -/

theorem rstripEmpty_nil : rstripEmpty [] = [] := rfl

theorem rstripEmpty_eq_self (l : List Bytes) (hne : l ≠ [])
    (hlast : (l.getLastD []).isEmpty = false) : rstripEmpty l = l := by
  unfold rstripEmpty
  have hrev : l.reverse = l.getLast hne :: l.dropLast.reverse := by
    conv_lhs => rw [← List.dropLast_append_getLast hne]
    simp [List.reverse_append]
  rw [hrev, List.dropWhile_cons]
  have : (l.getLast hne).isEmpty = false := by
    rwa [List.getLastD_eq_getLast? , List.getLast?_eq_getLast l hne] at hlast
  simp only [this, Bool.false_eq_true, if_false]
  rw [← hrev, List.reverse_reverse]

theorem rstripEmpty_singleton_empty : rstripEmpty [[]] = [] := rfl

theorem rstripEmpty_singleton (b : Bytes) (h : b ≠ []) : rstripEmpty [b] = [b] := by
  apply rstripEmpty_eq_self
  · simp
  · simpa [List.isEmpty_iff] using h

/-! ### Blob kind round-trip lemmas -/

theorem replicate_append_dropWhile (bs : Bytes) :
    List.replicate (bs.length - (bs.dropWhile (· = 0)).length) 0 ++ bs.dropWhile (· = 0) = bs := by
  induction bs with
  | nil => rfl
  | cons b rest ih =>
    by_cases hb : b = 0
    · subst hb
      have hd : List.dropWhile (fun x => decide (x = 0)) (0 :: rest)
          = List.dropWhile (fun x => decide (x = 0)) rest := by
        simp [List.dropWhile_cons]
      rw [hd]
      have hle : (List.dropWhile (fun x => decide (x = 0)) rest).length ≤ rest.length :=
        (List.dropWhile_sublist _).length_le
      have hlen : (0 :: rest).length - (List.dropWhile (fun x => decide (x = 0)) rest).length
          = (rest.length - (List.dropWhile (fun x => decide (x = 0)) rest).length) + 1 := by
        simp only [List.length_cons]; omega
      rw [hlen, List.replicate_succ, List.cons_append, ih]
    · have hd : List.dropWhile (fun x => decide (x = 0)) (b :: rest) = b :: rest := by
        simp [List.dropWhile_cons, hb]
      rw [hd]
      simp

theorem wfHexFixed_inv (N : Nat) (s : List Char) (h : wfHexFixed N s = true) :
    ∃ rest bs, s = '0' :: 'x' :: rest ∧ hexToBytes rest = some bs ∧ bs.length = N := by
  unfold wfHexFixed at h
  split at h
  · rename_i rest
    cases hbs : hexToBytes rest with
    | none => rw [hbs] at h; simp at h
    | some bs =>
      rw [hbs] at h
      simp only [beq_iff_eq] at h
      exact ⟨rest, bs, rfl, hbs, h⟩
  · simp at h

theorem wfHexData_inv (s : List Char) (h : wfHexData s = true) :
    ∃ rest bs, s = '0' :: 'x' :: rest ∧ hexToBytes rest = some bs := by
  unfold wfHexData at h
  split at h
  · rename_i rest
    cases hbs : hexToBytes rest with
    | none => rw [hbs] at h; simp at h
    | some bs => exact ⟨rest, bs, rfl, hbs⟩
  · simp at h

theorem CompactFixedBlob_roundtrip (N : Nat) (s : List Char) (h : wfHexFixed N s = true) :
    ∃ stripped, CompactFixedBlob_serialize N s = .ok stripped ∧
      stripped.length ≤ N ∧
      CompactFixedBlob_deserialize N stripped = .ok s := by
  obtain ⟨rest, bs, hs, hbs, hlen⟩ := wfHexFixed_inv N s h
  subst hs
  obtain ⟨hhex, hvalid⟩ := bytesToHex_hexToBytes rest bs hbs
  refine ⟨bs.dropWhile (· = 0), ?_, ?_, ?_⟩
  · simp [CompactFixedBlob_serialize, hbs, hlen]
  · calc (bs.dropWhile (· = 0)).length ≤ bs.length := (List.dropWhile_sublist _).length_le
    _ = N := hlen
  · have hle : (bs.dropWhile (· = 0)).length ≤ bs.length :=
      (List.dropWhile_sublist _).length_le
    unfold CompactFixedBlob_deserialize
    rw [if_neg (by omega)]
    have : List.replicate (N - (bs.dropWhile (· = 0)).length) 0 ++ bs.dropWhile (· = 0)
        = bs := by
      rw [← hlen]; exact replicate_append_dropWhile bs
    rw [this, hhex]

theorem NoneableFixedBlob_roundtrip (N : Nat) (hN : N ≠ 0) (o : Option (List Char))
    (h : o = none ∨ ∃ s, o = some s ∧ wfHexFixed N s = true) :
    ∃ b, NoneableFixedBlob_serialize N o = .ok b ∧
      NoneableFixedBlob_deserialize N b = .ok o := by
  rcases h with h | ⟨s, ho, h⟩
  · subst h
    exact ⟨[], rfl, by simp [NoneableFixedBlob_deserialize]⟩
  · subst ho
    obtain ⟨rest, bs, hs, hbs, hlen⟩ := wfHexFixed_inv N s h
    subst hs
    obtain ⟨hhex, hvalid⟩ := bytesToHex_hexToBytes rest bs hbs
    refine ⟨bs, ?_, ?_⟩
    · simp [NoneableFixedBlob_serialize, hbs, hlen]
    · unfold NoneableFixedBlob_deserialize
      rw [if_neg (by omega), if_pos hlen, hhex]

theorem Blob_roundtrip (s : List Char) (h : wfHexData s = true) :
    ∃ b, Blob_serialize s = .ok b ∧ Blob_deserialize b = s := by
  obtain ⟨rest, bs, hs, hbs⟩ := wfHexData_inv s h
  subst hs
  obtain ⟨hhex, hvalid⟩ := bytesToHex_hexToBytes rest bs hbs
  exact ⟨bs, by simp [Blob_serialize, hbs], by simp [Blob_deserialize, hhex]⟩

/-! ### Clause round-trip lemmas -/

theorem encodeClause_roundtrip (c : Clause) (h : c.wf) :
    ∃ it, encodeClause c = .ok it ∧ decodeClause it = .ok c := by
  obtain ⟨hto, hval, hdata⟩ := h
  obtain ⟨tb, hts, htd⟩ := NoneableFixedBlob_roundtrip 20 (by norm_num) c.«to» hto
  obtain ⟨hvs, hvd⟩ := NumericKind_roundtrip 32 c.value hval
  obtain ⟨db, hds, hdd⟩ := Blob_roundtrip c.data hdata
  refine ⟨Item.list [Item.bytes tb, Item.bytes (numSerialize c.value), Item.bytes db], ?_, ?_⟩
  · simp [encodeClause, hts, hvs, hds, bind, Except.bind]
  · simp [decodeClause, htd, hvd, hdd, bind, Except.bind]

theorem mapM_encodeClause (cs : List Clause) (h : ∀ c ∈ cs, c.wf) :
    ∃ its, cs.mapM encodeClause = .ok its ∧ its.mapM decodeClause = .ok cs := by
  induction cs with
  | nil => exact ⟨[], rfl, rfl⟩
  | cons c rest ih =>
    obtain ⟨it, henc, hdec⟩ := encodeClause_roundtrip c (h c (List.mem_cons_self _ _))
    obtain ⟨its, hrest, hrestd⟩ := ih (fun x hx => h x (List.mem_cons_of_mem _ hx))
    refine ⟨it :: its, ?_, ?_⟩
    · rw [List.mapM_cons, henc, hrest]; rfl
    · rw [List.mapM_cons, hdec, hrestd]; rfl

theorem mapM_itemBytes (rl : List Bytes) :
    (rl.map Item.bytes).mapM itemBytes = .ok rl := by
  induction rl with
  | nil => rfl
  | cons b rest ih =>
    rw [List.map_cons, List.mapM_cons, ih]
    rfl

/-! ### Reserved-field canonicalization lemmas -/

theorem encode_reserved_formula (t : Transaction)
    (hf : ∀ r, t.body.reserved = some r → ∀ f, r.features = some f → f < 256 ^ 4) :
    t.encode_reserved =
      .ok (rstripEmpty (numSerialize ((t.body.reserved.bind Reserved.features).getD 0)
        :: (t.body.reserved.bind Reserved.unused).getD [])) := by
  unfold Transaction.encode_reserved
  cases hr : t.body.reserved with
  | none =>
    simp [Body.to_dict, hr, NumericKind_serialize, numSerialize_zero, bind, Except.bind]
  | some r =>
    have hfit : (r.features.getD 0) < 256 ^ 4 := by
      cases hrf : r.features with
      | none => simp [pow_pos]
      | some f => simpa using hf r hr f hrf
    have hser : NumericKind_serialize 4 (r.features.getD 0)
        = .ok (numSerialize (r.features.getD 0)) :=
      (NumericKind_roundtrip 4 _ hfit).1
    by_cases hdict : reservedDictOf r = ⟨none, none⟩
    · have h1 : (if optNatTruthy r.features then r.features else none) = none := by
        have := congrArg ReservedDict.features hdict
        simpa [reservedDictOf] using this
      have h2 : (if optListTruthy r.unused then r.unused else none) = none := by
        have := congrArg ReservedDict.unused hdict
        simpa [reservedDictOf] using this
      have hfeat : r.features.getD 0 = 0 := by
        cases hrf : r.features with
        | none => rfl
        | some f =>
          rw [hrf] at h1
          by_cases hf0 : f = 0
          · simp [hf0]
          · rw [if_pos (by simp [optNatTruthy, hf0])] at h1
            exact absurd h1 (by simp)
      have hun : r.unused.getD [] = ([] : List Bytes) := by
        cases hru : r.unused with
        | none => rfl
        | some u =>
          rw [hru] at h2
          cases u with
          | nil => rfl
          | cons a l =>
            rw [if_pos (by simp [optListTruthy])] at h2
            exact absurd h2 (by simp)
      simp only [Body.to_dict, hr, Option.map_some, Option.some_bind]
      rw [if_pos (Or.inr (by simp [hdict]))]
      simp [NumericKind_serialize, numSerialize_zero, hfeat, hun, bind, Except.bind,
        numSerialize_zero]
    · simp only [Body.to_dict, hr, Option.map_some, Option.some_bind]
      rw [if_neg (by simp [hdict])]
      simp [hser, bind, Except.bind]

theorem getLastD_irrel {α : Type} (l : List α) (h : l ≠ []) (a b : α) :
    l.getLastD a = l.getLastD b := by
  rw [List.getLastD_eq_getLast?, List.getLastD_eq_getLast?, List.getLast?_eq_getLast l h]
  rfl

theorem decodeReservedList_cons (x : Bytes) (xs : List Bytes) :
    decodeReservedList (x :: xs) =
      if ((x :: xs).getLastD []).isEmpty then .error .untrimmedReservedField
      else (NumericKind_deserialize 4 x).bind
        (fun features => .ok (some ⟨some features, if xs.isEmpty then none else some xs⟩)) := by
  unfold decodeReservedList
  rfl

theorem decodeReserved_canonical (r : Option Reserved)
    (hfit : ∀ f, r.bind Reserved.features = some f → f < 256 ^ 4)
    (hres : reservedOk r) :
    ∃ res2 : Option Reserved,
      decodeReservedList (rstripEmpty (numSerialize ((r.bind Reserved.features).getD 0)
        :: (r.bind Reserved.unused).getD [])) = .ok res2 ∧
      res2.map reservedDictOf = r.map reservedDictOf := by
  cases r with
  | none =>
    refine ⟨none, ?_, rfl⟩
    simp only [Option.none_bind, Option.getD_none, numSerialize_zero,
      rstripEmpty_singleton_empty]
    rfl
  | some rr =>
    rcases hres with ⟨htru, hun⟩ | ⟨htru, hlast⟩
    · -- truthy features, unused absent or empty
      obtain ⟨f0, hf0, hf0ne⟩ : ∃ f0, rr.features = some f0 ∧ f0 ≠ 0 := by
        cases hrf : rr.features with
        | none => rw [hrf] at htru; simp [optNatTruthy] at htru
        | some f0 =>
          rw [hrf] at htru
          simp only [optNatTruthy, bne_iff_ne, ne_eq] at htru
          exact ⟨f0, rfl, htru⟩
      have hu : rr.unused.getD [] = ([] : List Bytes) := by
        rcases hun with h | h <;> simp [h]
      have hfit0 : f0 < 256 ^ 4 := hfit f0 (by simp [hf0])
      have hne : numSerialize f0 ≠ [] := numSerialize_ne_nil f0 hf0ne
      refine ⟨some ⟨some f0, none⟩, ?_, ?_⟩
      · simp only [Option.some_bind, hf0, Option.getD_some, hu]
        rw [rstripEmpty_singleton _ hne, decodeReservedList_cons]
        rw [if_neg (by simp [List.isEmpty_iff, hne])]
        have hdes := (NumericKind_roundtrip 4 f0 hfit0).2
        simp [hdes, bind, Except.bind]
      · simp only [Option.map_some']
        unfold reservedDictOf
        have h1 : optNatTruthy (some f0) = true := by simp [optNatTruthy, hf0ne]
        have h2 : optListTruthy rr.unused = false := by
          rcases hun with h | h <;> simp [h, optListTruthy]
        simp [h1, h2, hf0, htru]
    · -- non-empty unused with non-empty last element
      obtain ⟨u0, hu0, hu0ne⟩ : ∃ u0, rr.unused = some u0 ∧ u0 ≠ [] := by
        cases hru : rr.unused with
        | none => rw [hru] at htru; simp [optListTruthy] at htru
        | some u0 =>
          refine ⟨u0, rfl, ?_⟩
          intro hnil
          rw [hru, hnil] at htru
          simp [optListTruthy] at htru
      set f := rr.features.getD 0 with hfdef
      have hfitf : f < 256 ^ 4 := by
        cases hrf : rr.features with
        | none => rw [hfdef, hrf]; norm_num
        | some f0 =>
          rw [hfdef, hrf]
          simpa using hfit f0 (by simp [hrf])
      have hlastu : (u0.getLastD []).isEmpty = false := by
        rw [hu0] at hlast
        simpa using hlast
      have hcons : ((numSerialize f :: u0).getLastD []).isEmpty = false := by
        rw [List.getLastD_cons, getLastD_irrel u0 hu0ne _ ([] : Bytes)]
        exact hlastu
      have hstrip : rstripEmpty (numSerialize f :: u0) = numSerialize f :: u0 := by
        apply rstripEmpty_eq_self
        · simp
        · rw [List.getLastD_cons, getLastD_irrel u0 hu0ne _ ([] : Bytes)]
          exact hlastu
      refine ⟨some ⟨some f, some u0⟩, ?_, ?_⟩
      · simp only [Option.some_bind, hu0, Option.getD_some, ← hfdef]
        rw [hstrip, decodeReservedList_cons]
        rw [if_neg (by rw [hcons]; simp)]
        have hdes := (NumericKind_roundtrip 4 f hfitf).2
        simp [hdes, bind, Except.bind, List.isEmpty_iff, hu0ne]
      · simp only [Option.map_some']
        unfold reservedDictOf
        have h2 : optListTruthy (some u0) = true := by
          simp [optListTruthy, List.isEmpty_iff, hu0ne]
        have h2b : optListTruthy rr.unused = true := by rw [hu0]; exact h2
        cases hrf : rr.features with
        | none =>
          have hzero : f = 0 := by simp [hfdef, hrf]
          simp [hzero, optNatTruthy, h2, h2b, hu0, hrf]
        | some f0 =>
          have hff : f = f0 := by simp [hfdef, hrf]
          by_cases hf00 : f0 = 0
          · simp [hff, hf00, optNatTruthy, h2, h2b, hu0, hrf]
          · simp [hff, optNatTruthy, hf00, h2, h2b, hu0, hrf]

/-- C1 (amended): for every well-formed transaction — any clause count,
reserved present or absent, signature present or absent — whose reserved
field, when present, either has truthy features with an absent-or-empty
unused list, or has a non-empty unused list ending in a non-empty
element, `decode(encode(tx), unsigned = (signature absent))` returns a
transaction equal to `tx` under the `Transaction.__eq__` notion of
equality (signatures equal and canonical body dict projections equal,
clause list compared order-sensitively). -/
theorem C1_round_trip_amended (t : Transaction) (hwf : t.wf)
    (hres : reservedOk t.body.reserved) :
    ∃ t2, roundTrip t = .ok t2 ∧ Transaction.eq t2 t := by
  obtain ⟨⟨hct, hbr, hex, hcl, hgpc, hgas, hdep, hnon, hresf⟩, hsig⟩ := hwf
  have hfitb : ∀ f, t.body.reserved.bind Reserved.features = some f → f < 256 ^ 4 := by
    intro f hf
    cases hr : t.body.reserved with
    | none => rw [hr] at hf; simp at hf
    | some r =>
      rw [hr] at hf
      simp only [Option.some_bind] at hf
      exact hresf r hr f hf
  obtain ⟨res2, hrdec, hrproj⟩ := decodeReserved_canonical t.body.reserved hfitb hres
  set rl := rstripEmpty (numSerialize ((t.body.reserved.bind Reserved.features).getD 0)
    :: (t.body.reserved.bind Reserved.unused).getD []) with hrl
  have hresenc : t.encode_reserved = .ok rl := encode_reserved_formula t hresf
  have hcts := (NumericKind_roundtrip 1 _ hct).1
  have hctd := (NumericKind_roundtrip 1 _ hct).2
  obtain ⟨brb, hbrs, hbrlen, hbrd⟩ := CompactFixedBlob_roundtrip 8 _ hbr
  have hexs := (NumericKind_roundtrip 4 _ hex).1
  have hexd := (NumericKind_roundtrip 4 _ hex).2
  obtain ⟨its, hclss, hclsd⟩ := mapM_encodeClause _ hcl
  have hclss2 : List.mapM.loop encodeClause t.body.clauses [] = .ok its := hclss
  have hclsd2 : List.mapM.loop decodeClause its [] = .ok t.body.clauses := hclsd
  have hgpcs := (NumericKind_roundtrip 1 _ hgpc).1
  have hgpcd := (NumericKind_roundtrip 1 _ hgpc).2
  have hgass := (NumericKind_roundtrip 8 _ hgas).1
  have hgasd := (NumericKind_roundtrip 8 _ hgas).2
  obtain ⟨depb, hdeps, hdepd⟩ := NoneableFixedBlob_roundtrip 32 (by norm_num) _ hdep
  have hnons := (NumericKind_roundtrip 8 _ hnon).1
  have hnond := (NumericKind_roundtrip 8 _ hnon).2
  have hfields : encodeBodyItems t = .ok
      [Item.bytes (numSerialize t.body.chain_tag), Item.bytes brb,
       Item.bytes (numSerialize t.body.expiration), Item.list its,
       Item.bytes (numSerialize t.body.gas_price_coef),
       Item.bytes (numSerialize t.body.gas), Item.bytes depb,
       Item.bytes (numSerialize t.body.nonce), Item.list (rl.map Item.bytes)] := by
    simp [encodeBodyItems, hresenc, hcts, hbrs, hexs, hclss, hclss2, hgpcs, hgass, hdeps,
      hnons, bind, Except.bind]
  have hparse : ∀ sg : Option Bytes,
      parseCore (numSerialize t.body.chain_tag) brb (numSerialize t.body.expiration) its
        (numSerialize t.body.gas_price_coef) (numSerialize t.body.gas) depb
        (numSerialize t.body.nonce) (rl.map Item.bytes) sg =
      .ok ⟨t.body.chain_tag, t.body.block_ref, t.body.expiration, t.body.clauses,
           t.body.gas_price_coef, t.body.gas, t.body.depends_on, t.body.nonce, rl, sg⟩ := by
    intro sg
    have hrlb : List.mapM.loop itemBytes (rl.map Item.bytes) [] = .ok rl := mapM_itemBytes rl
    simp [parseCore, hctd, hbrd, hexd, hclsd, hclsd2, hgpcd, hgasd, hdepd, hnond,
      mapM_itemBytes, hrlb, bind, Except.bind]
  have hbodyeq : ∀ t2b : Body,
      t2b = ⟨t.body.chain_tag, t.body.block_ref, t.body.expiration, t.body.clauses,
             t.body.gas_price_coef, t.body.gas, t.body.depends_on, t.body.nonce, res2⟩ →
      t2b.to_dict = t.body.to_dict := by
    intro t2b ht2b
    subst ht2b
    simp [Body.to_dict, hrproj]
  cases hs : t.signature with
  | none =>
    refine ⟨⟨⟨t.body.chain_tag, t.body.block_ref, t.body.expiration, t.body.clauses,
             t.body.gas_price_coef, t.body.gas, t.body.depends_on, t.body.nonce, res2⟩,
             none⟩, ?_, ?_, ?_⟩
    · unfold roundTrip
      rw [hs]
      unfold Transaction.encode
      rw [hfields]
      simp only [bind, Except.bind, hs, Option.isNone_none]
      unfold Transaction.decode
      rw [show parseRawTx (Item.list
          [Item.bytes (numSerialize t.body.chain_tag), Item.bytes brb,
           Item.bytes (numSerialize t.body.expiration), Item.list its,
           Item.bytes (numSerialize t.body.gas_price_coef),
           Item.bytes (numSerialize t.body.gas), Item.bytes depb,
           Item.bytes (numSerialize t.body.nonce), Item.list (rl.map Item.bytes)]) true
          = parseCore (numSerialize t.body.chain_tag) brb (numSerialize t.body.expiration)
              its (numSerialize t.body.gas_price_coef) (numSerialize t.body.gas) depb
              (numSerialize t.body.nonce) (rl.map Item.bytes) none from rfl]
      rw [hparse none]
      simp [bind, Except.bind, hrdec]
    · exact hs.symm
    · exact hbodyeq _ rfl
  | some s =>
    have hsne : s ≠ [] := by
      intro hnil
      rw [hnil] at hs
      exact hsig hs
    have hsem : s.isEmpty = false := by simp [List.isEmpty_iff, hsne]
    refine ⟨⟨⟨t.body.chain_tag, t.body.block_ref, t.body.expiration, t.body.clauses,
             t.body.gas_price_coef, t.body.gas, t.body.depends_on, t.body.nonce, res2⟩,
             some s⟩, ?_, ?_, ?_⟩
    · unfold roundTrip
      unfold Transaction.encode
      rw [hfields]
      simp only [bind, Except.bind, hs, hsem, Option.isNone_some, Bool.false_eq_true,
        if_false]
      unfold Transaction.decode
      rw [show parseRawTx (Item.list
          ([Item.bytes (numSerialize t.body.chain_tag), Item.bytes brb,
            Item.bytes (numSerialize t.body.expiration), Item.list its,
            Item.bytes (numSerialize t.body.gas_price_coef),
            Item.bytes (numSerialize t.body.gas), Item.bytes depb,
            Item.bytes (numSerialize t.body.nonce), Item.list (rl.map Item.bytes)]
            ++ [Item.bytes s])) false
          = parseCore (numSerialize t.body.chain_tag) brb (numSerialize t.body.expiration)
              its (numSerialize t.body.gas_price_coef) (numSerialize t.body.gas) depb
              (numSerialize t.body.nonce) (rl.map Item.bytes) (some s) from rfl]
      rw [hparse (some s)]
      simp [bind, Except.bind, hrdec, hsem]
    · exact hs.symm
    · exact hbodyeq _ rfl

/-! ### Error classification lemmas -/

theorem NumericKind_deserialize_error (N : Nat) (b : Bytes) (e : Err)
    (h : NumericKind_deserialize N b = .error e) : e = .decodeError := by
  unfold NumericKind_deserialize at h
  split at h <;> simp_all

theorem CompactFixedBlob_deserialize_error (N : Nat) (b : Bytes) (e : Err)
    (h : CompactFixedBlob_deserialize N b = .error e) : e = .decodeError := by
  unfold CompactFixedBlob_deserialize at h
  split at h <;> simp_all

theorem NoneableFixedBlob_deserialize_error (N : Nat) (b : Bytes) (e : Err)
    (h : NoneableFixedBlob_deserialize N b = .error e) : e = .decodeError := by
  unfold NoneableFixedBlob_deserialize at h
  split at h
  · simp_all
  · split at h <;> simp_all

theorem decodeClause_error (it : Item) (e : Err)
    (h : decodeClause it = .error e) : e = .decodeError := by
  unfold decodeClause at h
  split at h
  · rename_i tb vb db
    cases h1 : NoneableFixedBlob_deserialize 20 tb with
    | error e1 =>
      rw [h1] at h
      simp only [bind, Except.bind] at h
      cases h
      exact NoneableFixedBlob_deserialize_error _ _ _ h1
    | ok v1 =>
      rw [h1] at h
      simp only [bind, Except.bind] at h
      cases h2 : NumericKind_deserialize 32 vb with
      | error e2 =>
        rw [h2] at h
        simp only [bind, Except.bind] at h
        cases h
        exact NumericKind_deserialize_error _ _ _ h2
      | ok v2 =>
        rw [h2] at h
        simp at h
  · simp_all

theorem itemBytes_error (it : Item) (e : Err)
    (h : itemBytes it = .error e) : e = .decodeError := by
  cases it <;> simp [itemBytes] at h
  simp_all

theorem mapM_except_error {α β : Type} (f : α → Except Err β)
    (herr : ∀ a e2, f a = .error e2 → e2 = .decodeError) :
    ∀ (l : List α) (e : Err), l.mapM f = .error e → e = .decodeError := by
  intro l
  induction l with
  | nil => intro e h; simp [List.mapM.loop, pure, Except.pure] at h
  | cons a rest ih =>
    intro e h
    rw [List.mapM_cons] at h
    cases h1 : f a with
    | error e1 =>
      rw [h1] at h
      simp only [bind, Except.bind] at h
      cases h
      exact herr a _ h1
    | ok v =>
      rw [h1] at h
      simp only [bind, Except.bind] at h
      cases h2 : rest.mapM f with
      | error e2 =>
        rw [h2] at h
        simp only [bind, Except.bind] at h
        cases h
        exact ih _ h2
      | ok vs =>
        rw [h2] at h
        simp [pure, Except.pure] at h

theorem parseCore_error (ct br ex : Bytes) (cls : List Item) (gpc g dep non : Bytes)
    (rs : List Item) (sig : Option Bytes) (e : Err)
    (h : parseCore ct br ex cls gpc g dep non rs sig = .error e) : e = .decodeError := by
  unfold parseCore at h
  cases h1 : NumericKind_deserialize 1 ct with
  | error e1 =>
    rw [h1] at h; simp only [bind, Except.bind] at h; cases h
    exact NumericKind_deserialize_error _ _ _ h1
  | ok v1 =>
  rw [h1] at h; simp only [bind, Except.bind] at h
  cases h2 : CompactFixedBlob_deserialize 8 br with
  | error e2 =>
    rw [h2] at h; simp only [bind, Except.bind] at h; cases h
    exact CompactFixedBlob_deserialize_error _ _ _ h2
  | ok v2 =>
  rw [h2] at h; simp only [bind, Except.bind] at h
  cases h3 : NumericKind_deserialize 4 ex with
  | error e3 =>
    rw [h3] at h; simp only [bind, Except.bind] at h; cases h
    exact NumericKind_deserialize_error _ _ _ h3
  | ok v3 =>
  rw [h3] at h; simp only [bind, Except.bind] at h
  cases h4 : cls.mapM decodeClause with
  | error e4 =>
    rw [h4] at h; simp only [bind, Except.bind] at h; cases h
    exact mapM_except_error decodeClause decodeClause_error cls _ h4
  | ok v4 =>
  rw [h4] at h; simp only [bind, Except.bind] at h
  cases h5 : NumericKind_deserialize 1 gpc with
  | error e5 =>
    rw [h5] at h; simp only [bind, Except.bind] at h; cases h
    exact NumericKind_deserialize_error _ _ _ h5
  | ok v5 =>
  rw [h5] at h; simp only [bind, Except.bind] at h
  cases h6 : NumericKind_deserialize 8 g with
  | error e6 =>
    rw [h6] at h; simp only [bind, Except.bind] at h; cases h
    exact NumericKind_deserialize_error _ _ _ h6
  | ok v6 =>
  rw [h6] at h; simp only [bind, Except.bind] at h
  cases h7 : NoneableFixedBlob_deserialize 32 dep with
  | error e7 =>
    rw [h7] at h; simp only [bind, Except.bind] at h; cases h
    exact NoneableFixedBlob_deserialize_error _ _ _ h7
  | ok v7 =>
  rw [h7] at h; simp only [bind, Except.bind] at h
  cases h8 : NumericKind_deserialize 8 non with
  | error e8 =>
    rw [h8] at h; simp only [bind, Except.bind] at h; cases h
    exact NumericKind_deserialize_error _ _ _ h8
  | ok v8 =>
  rw [h8] at h; simp only [bind, Except.bind] at h
  cases h9 : rs.mapM itemBytes with
  | error e9 =>
    rw [h9] at h; simp only [bind, Except.bind] at h; cases h
    exact mapM_except_error itemBytes itemBytes_error rs _ h9
  | ok v9 =>
    rw [h9] at h; simp [pure, Except.pure] at h

theorem parseRawTx_error (it : Item) (u : Bool) (e : Err)
    (h : parseRawTx it u = .error e) : e = .decodeError := by
  unfold parseRawTx at h
  split at h
  · exact parseCore_error _ _ _ _ _ _ _ _ _ _ _ h
  · exact parseCore_error _ _ _ _ _ _ _ _ _ _ _ h
  · simp_all

/-- C1 (counterexample): the claim as stated fails on the code.  The
well-formed transaction whose body carries `Reserved{features: 0,
unused: []}` (reserved present, signature absent, one clause) decodes
from its own encoding to a transaction with no reserved at all; its
canonical body dict has a `reserved` key (the empty dict) while the
decoded one has none, so `Transaction.__eq__` is false. -/
theorem C1_counterexample :
    txEmptyReserved.wf ∧ ¬ reservedOk txEmptyReserved.body.reserved ∧
    roundTrip txEmptyReserved = .ok txPlain ∧ ¬ Transaction.eq txPlain txEmptyReserved := by
  refine ⟨by decide, by decide, by decide, by decide⟩

/-- C1 (witness): the amended round-trip theorem applied to a concrete
well-formed transaction with three clauses, a reserved field and a
65-byte signature. -/
theorem C1_round_trip_witness :
    ∃ t2, roundTrip txThree = .ok t2 ∧ Transaction.eq t2 txThree :=
  C1_round_trip_amended txThree (by decide) (by decide)

/-- C3: for every transaction whose features value (when present) fits
in four bytes, the canonical reserved list is `[encoded(features,
default 0)] ++ unused (default empty)` right-stripped of its trailing
zero-length elements; it is empty when the reserved is absent or is
`Reserved{features: 0, unused: []}` (so no reserved field is
transmitted); and decoding any wire value whose reserved list is empty
yields a body with no Reserved at all. -/
theorem C3_reserved_canonicalization (t : Transaction) (it : Item) (u : Bool) (raw : RawTx)
    (hf : ∀ r, t.body.reserved = some r → ∀ f, r.features = some f → f < 256 ^ 4)
    (hraw : parseRawTx it u = .ok raw) (hempty : raw.reserved = []) :
    t.encode_reserved = .ok (rstripEmpty
      (numSerialize ((t.body.reserved.bind Reserved.features).getD 0)
        :: (t.body.reserved.bind Reserved.unused).getD [])) ∧
    ((t.body.reserved = none ∨ t.body.reserved = some ⟨some 0, some []⟩) →
      t.encode_reserved = .ok []) ∧
    ∃ t2, Transaction.decode it u = .ok t2 ∧ t2.body.reserved = none := by
  refine ⟨encode_reserved_formula t hf, ?_, ?_⟩
  · intro h
    rw [encode_reserved_formula t hf]
    rcases h with h | h <;>
      simp [h, numSerialize_zero, rstripEmpty_singleton_empty]
  · have hdec : decodeReservedList raw.reserved = .ok none := by
      rw [hempty]; rfl
    unfold Transaction.decode
    rw [hraw]
    simp only [bind, Except.bind, hdec]
    cases hsr : raw.signature with
    | none =>
      exact ⟨⟨⟨raw.chainTag, raw.blockRef, raw.expiration, raw.clauses, raw.gasPriceCoef,
        raw.gas, raw.dependsOn, raw.nonce, none⟩, none⟩, by simp [hsr], rfl⟩
    | some s =>
      by_cases hse : s.isEmpty
      · exact ⟨⟨⟨raw.chainTag, raw.blockRef, raw.expiration, raw.clauses, raw.gasPriceCoef,
          raw.gas, raw.dependsOn, raw.nonce, none⟩, none⟩, by simp [hsr, hse], rfl⟩
      · exact ⟨⟨⟨raw.chainTag, raw.blockRef, raw.expiration, raw.clauses, raw.gasPriceCoef,
          raw.gas, raw.dependsOn, raw.nonce, none⟩, some s⟩, by simp [hsr, hse], rfl⟩

/-- C3 (witness): the canonicalization theorem evaluated on a concrete
transaction carrying `Reserved{features: 5, unused: ["", ""]}` (whose
canonical list evaluates to `[encode(5)] = [[5]]`) and a concrete wire
value with an empty reserved list. -/
theorem C3_reserved_canonicalization_witness :
    ({ body := { baseBody with reserved := some ⟨some 5, some [[], []]⟩ } }
        : Transaction).encode_reserved = .ok [[5]] ∧
    ∃ t2, Transaction.decode itemEmptyReserved true = .ok t2 ∧ t2.body.reserved = none := by
  have h := C3_reserved_canonicalization
    { body := { baseBody with reserved := some ⟨some 5, some [[], []]⟩ } }
    itemEmptyReserved true
    ⟨1, "0x0000000000000000".toList, 0, [], 0, 0, none, 0, [], none⟩
    (by decide) (by decide) rfl
  refine ⟨?_, h.2.2⟩
  rw [h.1]
  decide

/-- C4: `decode` fails with `UntrimmedReservedField` exactly when the
wire value decodes under the schema to a raw transaction whose reserved
list is non-empty with a zero-length last element; on such input decode
therefore never returns a transaction. -/
theorem C4_untrimmed_iff (it : Item) (u : Bool) :
    Transaction.decode it u = .error .untrimmedReservedField ↔
      ∃ raw, parseRawTx it u = .ok raw ∧ raw.reserved ≠ [] ∧
        (raw.reserved.getLastD []).isEmpty = true := by
  constructor
  · intro h
    cases hp : parseRawTx it u with
    | error e =>
      have he := parseRawTx_error it u e hp
      unfold Transaction.decode at h
      rw [hp] at h
      simp only [bind, Except.bind] at h
      cases h
      cases he
    | ok raw =>
      refine ⟨raw, rfl, ?_⟩
      unfold Transaction.decode at h
      rw [hp] at h
      simp only [bind, Except.bind] at h
      cases hr : raw.reserved with
      | nil =>
        rw [hr] at h
        simp only [decodeReservedList] at h
        cases hsr : raw.signature with
        | none => rw [hsr] at h; simp at h
        | some s =>
          rw [hsr] at h
          by_cases hse : s.isEmpty <;> simp [hse] at h
      | cons x xs =>
        rw [hr, decodeReservedList_cons] at h
        by_cases hlast : ((x :: xs).getLastD []).isEmpty
        · exact ⟨by simp, hlast⟩
        · rw [if_neg hlast] at h
          exfalso
          cases hd : NumericKind_deserialize 4 x with
          | error e2 =>
            rw [hd] at h
            simp only [Except.bind] at h
            cases h
            exact absurd (NumericKind_deserialize_error _ _ _ hd) (by simp)
          | ok f =>
            rw [hd] at h
            simp only [Except.bind] at h
            cases hsr : raw.signature with
            | none => rw [hsr] at h; simp at h
            | some s =>
              rw [hsr] at h
              by_cases hse : s.isEmpty <;> simp [hse] at h
  · rintro ⟨raw, hp, hne, hlast⟩
    unfold Transaction.decode
    rw [hp]
    simp only [bind, Except.bind]
    cases hr : raw.reserved with
    | nil => exact absurd hr hne
    | cons x xs =>
      rw [hr] at hlast
      rw [decodeReservedList_cons, if_pos hlast]

/-- C4 (witness): the equivalence evaluated on a concrete wire value
whose reserved list is the single zero-length element, showing that
decode fails with `UntrimmedReservedField` there. -/
theorem C4_untrimmed_witness :
    Transaction.decode itemUntrimmed true = .error .untrimmedReservedField :=
  (C4_untrimmed_iff itemUntrimmed true).mpr
    ⟨⟨1, "0x0000000000000000".toList, 0, [], 0, 0, none, 0, [[]], none⟩,
     by decide, by decide, by decide⟩

/-! ### Gas lemmas -/

theorem countZeroPairs_le : ∀ (l : List Char), countZeroPairs l ≤ l.length / 2
  | [] => by simp [countZeroPairs]
  | [c] => by simp [countZeroPairs]
  | c1 :: c2 :: rest => by
    have ih := countZeroPairs_le rest
    simp only [countZeroPairs, List.length_cons]
    have : (rest.length + 1 + 1) / 2 = rest.length / 2 + 1 := by omega
    rw [this]
    split <;> omega

theorem dataGasLoop_even : ∀ (l : List Char), l.length % 2 = 0 → ∀ acc,
    dataGasLoop acc l = some (acc + (Z_GAS * countZeroPairs l
      + NZ_GAS * (l.length / 2 - countZeroPairs l)))
  | [], _, acc => by simp [dataGasLoop, countZeroPairs]
  | [c], h, acc => by simp at h
  | c1 :: c2 :: rest, h, acc => by
    have hrest : rest.length % 2 = 0 := by
      simp only [List.length_cons] at h
      omega
    have hle := countZeroPairs_le rest
    rw [dataGasLoop, dataGasLoop_even rest hrest]
    congr 1
    simp only [countZeroPairs, List.length_cons]
    have hlen : (rest.length + 1 + 1) / 2 = rest.length / 2 + 1 := by omega
    rw [hlen]
    by_cases hc : c1 = '0' ∧ c2 = '0'
    · simp only [if_pos hc, Z_GAS, NZ_GAS]
      omega
    · simp only [if_neg hc, Z_GAS, NZ_GAS]
      omega

theorem dataGasLoop_odd_zero : ∀ (l : List Char), l.length % 2 = 1 →
    l.getLastD ' ' = '0' → ∀ acc, dataGasLoop acc l = none
  | [], h, _, _ => by simp at h
  | [c], _, hl, acc => by
    rw [show ([c] : List Char).getLastD ' ' = c from rfl] at hl
    simp [dataGasLoop, hl]
  | c1 :: c2 :: rest, h, hl, acc => by
    have hrest : rest.length % 2 = 1 := by
      simp only [List.length_cons] at h
      omega
    have hne : rest ≠ [] := by
      intro hnil
      rw [hnil] at hrest
      simp at hrest
    have hlast : rest.getLastD ' ' = '0' := by
      rw [List.getLastD_cons, List.getLastD_cons] at hl
      rwa [getLastD_irrel rest hne c2 ' '] at hl
    rw [dataGasLoop]
    exact dataGasLoop_odd_zero rest hrest hlast _

theorem dataGasLoop_odd_nonzero : ∀ (l : List Char), l.length % 2 = 1 →
    l.getLastD ' ' ≠ '0' → ∀ acc,
    dataGasLoop acc l = some (acc + (Z_GAS * countZeroPairs l
      + NZ_GAS * (l.length / 2 - countZeroPairs l) + NZ_GAS))
  | [], h, _, _ => by simp at h
  | [c], _, hl, acc => by
    rw [show ([c] : List Char).getLastD ' ' = c from rfl] at hl
    have hz : countZeroPairs [c] = 0 := rfl
    rw [dataGasLoop, if_neg hl, hz]
    simp
  | c1 :: c2 :: rest, h, hl, acc => by
    have hrest : rest.length % 2 = 1 := by
      simp only [List.length_cons] at h
      omega
    have hne : rest ≠ [] := by
      intro hnil
      rw [hnil] at hrest
      simp at hrest
    have hlast : rest.getLastD ' ' ≠ '0' := by
      rw [List.getLastD_cons, List.getLastD_cons] at hl
      rwa [getLastD_irrel rest hne c2 ' '] at hl
    have hle := countZeroPairs_le rest
    rw [dataGasLoop, dataGasLoop_odd_nonzero rest hrest hlast]
    congr 1
    simp only [countZeroPairs, List.length_cons]
    have hlen : (rest.length + 1 + 1) / 2 = rest.length / 2 + 1 := by omega
    rw [hlen]
    by_cases hc : c1 = '0' ∧ c2 = '0'
    · simp only [if_pos hc, Z_GAS, NZ_GAS]
      omega
    · simp only [if_neg hc, Z_GAS, NZ_GAS]
      omega

theorem data_gas_even (s : List Char) (h : (s.drop 2).length % 2 = 0) :
    data_gas s = some (Z_GAS * countZeroPairs (s.drop 2)
      + NZ_GAS * ((s.drop 2).length / 2 - countZeroPairs (s.drop 2))) := by
  unfold data_gas
  rw [dataGasLoop_even _ h 0]
  simp

theorem getLastD_drop2 : ∀ (s : List Char), 3 ≤ s.length →
    (s.drop 2).getLastD ' ' = s.getLastD ' '
  | [], h => by simp at h
  | [a], h => by simp at h
  | [a, b], h => by simp at h
  | a :: b :: c :: rest, _ => by
    show (c :: rest).getLastD ' ' = (a :: b :: c :: rest).getLastD ' '
    rw [List.getLastD_eq_getLast?, List.getLastD_eq_getLast?,
      List.getLast?_cons_cons, List.getLast?_cons_cons]

/-- C10 (amended): `data_gas` reads `data[x+1]` out of range (modelled
as `none`) exactly on the inputs of odd length at least 3 whose final
character is `'0'` — Python's short-circuiting `and` skips the read
otherwise, charging the lone final character as a non-zero byte — and
under the precondition that the data is a `'0x'`-prefixed string of
even length it never indexes out of range and equals `4 * z + 68 * n`,
where `z` counts the `"00"` hex-digit pairs after the prefix and `n`
the remaining pairs. -/
theorem C10_data_gas_totality (s : List Char) :
    (s.length % 2 = 1 → 3 ≤ s.length → s.getLastD ' ' = '0' → data_gas s = none) ∧
    (s.length % 2 = 1 → 3 ≤ s.length → s.getLastD ' ' ≠ '0' →
      data_gas s = some (4 * countZeroPairs (s.drop 2)
        + 68 * ((s.drop 2).length / 2 - countZeroPairs (s.drop 2)) + 68)) ∧
    (s.take 2 = ['0', 'x'] → s.length % 2 = 0 →
      data_gas s = some (4 * countZeroPairs (s.drop 2)
        + 68 * ((s.drop 2).length / 2 - countZeroPairs (s.drop 2)))) := by
  refine ⟨?_, ?_, ?_⟩
  · intro h1 h3 hlast
    unfold data_gas
    apply dataGasLoop_odd_zero
    · simp only [List.length_drop]
      omega
    · rw [getLastD_drop2 s h3]
      exact hlast
  · intro h1 h3 hlast
    unfold data_gas
    rw [dataGasLoop_odd_nonzero (s.drop 2)
      (by simp only [List.length_drop]; omega)
      (by rw [getLastD_drop2 s h3]; exact hlast)]
    congr 1
    simp only [Z_GAS, NZ_GAS]
    omega
  · intro hpre heven
    have h2 : 2 ≤ s.length := by
      have := congrArg List.length hpre
      simp only [List.length_take, List.length_cons, List.length_nil] at this
      omega
    have heq : (s.drop 2).length % 2 = 0 := by
      simp only [List.length_drop]
      omega
    rw [data_gas_even s heq]
    rfl

/-- C10 (counterexample): the claim that every input of odd length at
least 3 makes the loop read `data[x+1]` out of range is false of the
code: Python's `and` short-circuits, so on `"0xabc"` the final scanned
character `'c'` is not `'0'`, the out-of-range index is never read, and
`data_gas` returns `68 + 68 = 136`. -/
theorem C10_counterexample :
    "0xabc".toList.length % 2 = 1 ∧ 3 ≤ "0xabc".toList.length ∧
    data_gas "0xabc".toList = some 136 := by
  refine ⟨by decide, by decide, by decide⟩

/-- C10 (witness): `"0xab0"` (odd length, final `'0'`) reads out of
range; `"0xabc"` (odd length, final non-`'0'`) totals `136`;
even-length `"0x00ff"` gives `4 + 68 = 72`. -/
theorem C10_data_gas_totality_witness :
    data_gas "0xab0".toList = none ∧
    data_gas "0xabc".toList = some 136 ∧
    data_gas "0x00ff".toList = some 72 := by
  have h0 := (C10_data_gas_totality "0xab0".toList).1 (by decide) (by decide) (by decide)
  have h1 := (C10_data_gas_totality "0xabc".toList).2.1 (by decide) (by decide) (by decide)
  have h2 := (C10_data_gas_totality "0x00ff".toList).2.2 (by decide) (by decide)
  refine ⟨h0, ?_, ?_⟩
  · rw [h1]; decide
  · rw [h2]; decide

theorem intrinsicGasLoop_formula :
    ∀ (cs : List Clause),
      (∀ c ∈ cs, c.«to» ≠ some [] ∧ (c.data.drop 2).length % 2 = 0) → ∀ acc,
      intrinsicGasLoop acc cs = some (acc + (cs.map (fun c =>
        (if c.«to».isSome then CLAUSE_GAS else CLAUSE_CONTRACT_CREATION)
          + (Z_GAS * countZeroPairs (c.data.drop 2)
            + NZ_GAS * ((c.data.drop 2).length / 2 - countZeroPairs (c.data.drop 2))))).sum)
  | [], _, acc => by simp [intrinsicGasLoop]
  | c :: rest, h, acc => by
    obtain ⟨hto, hdata⟩ := h c (List.mem_cons_self _ _)
    have hrest := fun x hx => h x (List.mem_cons_of_mem _ hx)
    have hdg := data_gas_even c.data hdata
    have step : intrinsicGasLoop acc (c :: rest) = intrinsicGasLoop
        (acc + ((if optListTruthy c.«to» then CLAUSE_GAS else CLAUSE_CONTRACT_CREATION)
          + (Z_GAS * countZeroPairs (c.data.drop 2)
            + NZ_GAS * ((c.data.drop 2).length / 2 - countZeroPairs (c.data.drop 2))))) rest := by
      rw [intrinsicGasLoop, hdg]
    rw [step, intrinsicGasLoop_formula rest hrest]
    have htruthy : optListTruthy c.«to» = c.«to».isSome := by
      cases hcto : c.«to» with
      | none => rfl
      | some s =>
        have : s ≠ [] := by
          intro hnil
          exact hto (by rw [hcto, hnil])
        simp [optListTruthy, List.isEmpty_iff, this]
    rw [htruthy]
    simp only [List.map_cons, List.sum_cons, Option.some.injEq]
    omega


/-- C2: `intrinsic_gas` returns `TX_GAS + CLAUSE_GAS = 21000` for the
empty clause list; otherwise it returns `5000` plus, per clause, `16000`
when the clause's `to` is present (regular call) else `48000` (contract
creation), plus `data_gas(clause.data)` computed as 4 gas per `"00"`
hex-digit pair after the `'0x'` prefix and 68 per other pair; in
particular one clause with `to` present and data `"0x00ff"` gives
`21072`. -/
theorem C2_intrinsic_gas (cs : List Clause) (hne : cs ≠ [])
    (hto : ∀ c ∈ cs, c.«to» ≠ some [])
    (hdata : ∀ c ∈ cs, c.data.take 2 = ['0', 'x'] ∧ c.data.length % 2 = 0) :
    intrinsic_gas [] = some (TX_GAS + CLAUSE_GAS) ∧
    TX_GAS + CLAUSE_GAS = 21000 ∧
    intrinsic_gas cs = some (TX_GAS + (cs.map (fun c =>
      (if c.«to».isSome then CLAUSE_GAS else CLAUSE_CONTRACT_CREATION)
        + (Z_GAS * countZeroPairs (c.data.drop 2)
          + NZ_GAS * ((c.data.drop 2).length / 2 - countZeroPairs (c.data.drop 2))))).sum) ∧
    intrinsic_gas [⟨some ['0', 'x'], 0, "0x00ff".toList⟩] = some 21072 := by
  refine ⟨rfl, rfl, ?_, by decide⟩
  have hlen : ¬ cs.length = 0 := by
    intro h
    exact hne (List.length_eq_zero.mp h)
  unfold intrinsic_gas
  rw [if_neg hlen]
  apply intrinsicGasLoop_formula
  intro c hc
  refine ⟨hto c hc, ?_⟩
  obtain ⟨hpre, heven⟩ := hdata c hc
  have h2 : 2 ≤ c.data.length := by
    have := congrArg List.length hpre
    simp only [List.length_take, List.length_cons, List.length_nil] at this
    omega
  simp only [List.length_drop]
  omega

/-- C2 (witness): the formula evaluated on a concrete singleton clause
list (`to` present, data `"0x00ff"`), giving `5000 + 16000 + 4 + 68 =
21072`. -/
theorem C2_intrinsic_gas_witness :
    intrinsic_gas [⟨some addr1, 5, "0x00ff".toList⟩] = some 21072 := by
  have h := C2_intrinsic_gas [⟨some addr1, 5, "0x00ff".toList⟩]
    (by decide) (by decide) (by decide)
  rw [h.2.2.1]
  decide

/-- C5: `is_delegated()` is true if and only if the body has a Reserved
present whose `features` is present and non-zero with `features &
DELEGATED_MASK(=1) = 1`; in particular `features = 1` gives true,
`features = 2` false, `features = 3` true, and no Reserved, or absent or
zero features, give false. -/
theorem C5_is_delegated (t : Transaction) :
    (t.is_delegated = true ↔ ∃ r f, t.body.reserved = some r ∧ r.features = some f ∧
      f ≠ 0 ∧ f &&& DELEGATED_MASK = DELEGATED_MASK) ∧
    ({ body := { baseBody with reserved := some ⟨some 1, none⟩ } }
      : Transaction).is_delegated = true ∧
    ({ body := { baseBody with reserved := some ⟨some 2, none⟩ } }
      : Transaction).is_delegated = false ∧
    ({ body := { baseBody with reserved := some ⟨some 3, none⟩ } }
      : Transaction).is_delegated = true ∧
    ({ body := baseBody } : Transaction).is_delegated = false ∧
    ({ body := { baseBody with reserved := some ⟨none, some [[1]]⟩ } }
      : Transaction).is_delegated = false ∧
    ({ body := { baseBody with reserved := some ⟨some 0, some [[1]]⟩ } }
      : Transaction).is_delegated = false := by
  refine ⟨?_, by decide, by decide, by decide, by decide, by decide, by decide⟩
  cases hr : t.body.reserved with
  | none =>
    have hd : t.is_delegated = false := by
      unfold Transaction.is_delegated
      rw [show t.body.to_dict.reserved = none from by simp [Body.to_dict, hr]]
    rw [hd]
    simp only [Bool.false_eq_true, false_iff]
    rintro ⟨r, f, hrr, -⟩
    simp at hrr
  | some r =>
    have hd : t.is_delegated = (if reservedDictOf r = ⟨none, none⟩ then false else
        match (reservedDictOf r).features with
        | none => false
        | some f => if f = 0 then false else (f &&& DELEGATED_MASK) == DELEGATED_MASK) := by
      unfold Transaction.is_delegated
      rw [show t.body.to_dict.reserved = some (reservedDictOf r) from by
        simp [Body.to_dict, hr]]
    rw [hd]
    constructor
    · intro h
      by_cases hdd : reservedDictOf r = (⟨none, none⟩ : ReservedDict)
      · rw [if_pos hdd] at h; simp at h
      · rw [if_neg hdd] at h
        cases hrdf : (reservedDictOf r).features with
        | none => rw [hrdf] at h; simp at h
        | some f =>
          rw [hrdf] at h
          have h2 : (if f = 0 then false
              else (f &&& DELEGATED_MASK) == DELEGATED_MASK) = true := h
          by_cases hf0 : f = 0
          · rw [if_pos hf0] at h2; simp at h2
          · rw [if_neg hf0] at h2
            have hmask : f &&& DELEGATED_MASK = DELEGATED_MASK := by simpa using h2
            have hfeat : r.features = some f := by
              unfold reservedDictOf at hrdf
              simp only at hrdf
              split at hrdf
              · exact hrdf
              · simp at hrdf
            exact ⟨r, f, rfl, hfeat, hf0, hmask⟩
    · rintro ⟨r2, f, hr2, hf, hf0, hmask⟩
      injection hr2 with hr2e
      subst hr2e
      have htru : optNatTruthy r.features = true := by
        simp [optNatTruthy, hf, hf0]
      have hrdf : (reservedDictOf r).features = some f := by
        simp [reservedDictOf, htru, hf, optNatTruthy, hf0]
      rw [if_neg (fun hdd => by rw [hdd] at hrdf; simp at hrdf)]
      rw [hrdf]
      show (if f = 0 then false else (f &&& DELEGATED_MASK) == DELEGATED_MASK) = true
      rw [if_neg hf0]
      simpa using hmask

/-! ### Serialize-error classification (encoding raises only codec
serialization errors, never the delegate-address error) -/

theorem NumericKind_serialize_error (N n : Nat) (e : Err)
    (h : NumericKind_serialize N n = .error e) : e = .serializeError := by
  simp only [NumericKind_serialize] at h
  split at h <;> simp_all

theorem CompactFixedBlob_serialize_error (N : Nat) (s : List Char) (e : Err)
    (h : CompactFixedBlob_serialize N s = .error e) : e = .serializeError := by
  unfold CompactFixedBlob_serialize at h
  split at h
  · split at h
    · split at h <;> simp_all
    · simp_all
  · simp_all

theorem NoneableFixedBlob_serialize_error (N : Nat) (o : Option (List Char)) (e : Err)
    (h : NoneableFixedBlob_serialize N o = .error e) : e = .serializeError := by
  unfold NoneableFixedBlob_serialize at h
  split at h
  · simp_all
  · split at h
    · split at h
      · split at h <;> simp_all
      · simp_all
    · simp_all

theorem Blob_serialize_error (s : List Char) (e : Err)
    (h : Blob_serialize s = .error e) : e = .serializeError := by
  unfold Blob_serialize at h
  split at h
  · split at h <;> simp_all
  · simp_all

theorem mapM_except_serialize_error {α β : Type} (f : α → Except Err β)
    (herr : ∀ a e2, f a = .error e2 → e2 = .serializeError) :
    ∀ (l : List α) (e : Err), l.mapM f = .error e → e = .serializeError := by
  intro l
  induction l with
  | nil => intro e h; simp [List.mapM.loop, pure, Except.pure] at h
  | cons a rest ih =>
    intro e h
    rw [List.mapM_cons] at h
    cases h1 : f a with
    | error e1 =>
      rw [h1] at h
      simp only [bind, Except.bind] at h
      cases h
      exact herr a _ h1
    | ok v =>
      rw [h1] at h
      simp only [bind, Except.bind] at h
      cases h2 : rest.mapM f with
      | error e2 =>
        rw [h2] at h
        simp only [bind, Except.bind] at h
        cases h
        exact ih _ h2
      | ok vs =>
        rw [h2] at h
        simp [pure, Except.pure] at h

theorem encodeClause_error (c : Clause) (e : Err)
    (h : encodeClause c = .error e) : e = .serializeError := by
  unfold encodeClause at h
  cases h1 : NoneableFixedBlob_serialize 20 c.«to» with
  | error e1 =>
    rw [h1] at h
    simp only [bind, Except.bind] at h
    cases h
    exact NoneableFixedBlob_serialize_error _ _ _ h1
  | ok v1 =>
    rw [h1] at h
    simp only [bind, Except.bind] at h
    cases h2 : NumericKind_serialize 32 c.value with
    | error e2 =>
      rw [h2] at h
      simp only [bind, Except.bind] at h
      cases h
      exact NumericKind_serialize_error _ _ _ h2
    | ok v2 =>
      rw [h2] at h
      simp only [bind, Except.bind] at h
      cases h3 : Blob_serialize c.data with
      | error e3 =>
        rw [h3] at h
        simp only [bind, Except.bind] at h
        cases h
        exact Blob_serialize_error _ _ h3
      | ok v3 =>
        rw [h3] at h
        simp at h

theorem except_bind_pure_error {α β : Type} (x : Except Err α) (g : α → β) (e : Err)
    (h : (x >>= fun a => Except.ok (g a)) = .error e) : x = .error e := by
  cases x with
  | error e1 =>
    simp only [bind, Except.bind] at h
    simp_all
  | ok v =>
    simp [bind, Except.bind] at h

theorem encode_reserved_error (t : Transaction) (e : Err)
    (h : t.encode_reserved = .error e) : e = .serializeError := by
  simp only [Transaction.encode_reserved] at h
  have h2 := except_bind_pure_error _ _ _ h
  exact NumericKind_serialize_error _ _ _ h2

theorem encodeBodyItems_error (t : Transaction) (e : Err)
    (h : encodeBodyItems t = .error e) : e = .serializeError := by
  unfold encodeBodyItems at h
  cases h0 : t.encode_reserved with
  | error e0 =>
    rw [h0] at h; simp only [bind, Except.bind] at h; cases h
    exact encode_reserved_error _ _ h0
  | ok v0 =>
  rw [h0] at h; simp only [bind, Except.bind] at h
  cases h1 : NumericKind_serialize 1 t.body.chain_tag with
  | error e1 =>
    rw [h1] at h; simp only [bind, Except.bind] at h; cases h
    exact NumericKind_serialize_error _ _ _ h1
  | ok v1 =>
  rw [h1] at h; simp only [bind, Except.bind] at h
  cases h2 : CompactFixedBlob_serialize 8 t.body.block_ref with
  | error e2 =>
    rw [h2] at h; simp only [bind, Except.bind] at h; cases h
    exact CompactFixedBlob_serialize_error _ _ _ h2
  | ok v2 =>
  rw [h2] at h; simp only [bind, Except.bind] at h
  cases h3 : NumericKind_serialize 4 t.body.expiration with
  | error e3 =>
    rw [h3] at h; simp only [bind, Except.bind] at h; cases h
    exact NumericKind_serialize_error _ _ _ h3
  | ok v3 =>
  rw [h3] at h; simp only [bind, Except.bind] at h
  cases h4 : t.body.clauses.mapM encodeClause with
  | error e4 =>
    rw [h4] at h; simp only [bind, Except.bind] at h; cases h
    exact mapM_except_serialize_error encodeClause encodeClause_error _ _ h4
  | ok v4 =>
  rw [h4] at h; simp only [bind, Except.bind] at h
  cases h5 : NumericKind_serialize 1 t.body.gas_price_coef with
  | error e5 =>
    rw [h5] at h; simp only [bind, Except.bind] at h; cases h
    exact NumericKind_serialize_error _ _ _ h5
  | ok v5 =>
  rw [h5] at h; simp only [bind, Except.bind] at h
  cases h6 : NumericKind_serialize 8 t.body.gas with
  | error e6 =>
    rw [h6] at h; simp only [bind, Except.bind] at h; cases h
    exact NumericKind_serialize_error _ _ _ h6
  | ok v6 =>
  rw [h6] at h; simp only [bind, Except.bind] at h
  cases h7 : NoneableFixedBlob_serialize 32 t.body.depends_on with
  | error e7 =>
    rw [h7] at h; simp only [bind, Except.bind] at h; cases h
    exact NoneableFixedBlob_serialize_error _ _ _ h7
  | ok v7 =>
  rw [h7] at h; simp only [bind, Except.bind] at h
  cases h8 : NumericKind_serialize 8 t.body.nonce with
  | error e8 =>
    rw [h8] at h; simp only [bind, Except.bind] at h; cases h
    exact NumericKind_serialize_error _ _ _ h8
  | ok v8 =>
    rw [h8] at h; simp at h

/-- C9: calling `get_signing_hash` with `delegate_for` equal to the
empty string skips the delegation branch (the code tests truthiness, not
presence): no address validation happens, `InvalidDelegateAddress` is
never raised, and the result is exactly the plain non-delegated signing
hash. -/
theorem C9_empty_delegate_for (cr : Crypto) (t : Transaction) :
    t.get_signing_hash cr (some []) = t.get_signing_hash cr none ∧
    ((t.get_signing_hash cr (some [])).isOk = true ∨
      t.get_signing_hash cr (some []) = .error .serializeError) := by
  unfold Transaction.get_signing_hash
  cases he : encodeBodyItems t with
  | error e =>
    simp only [bind, Except.bind]
    exact ⟨by trivial, Or.inr (by rw [encodeBodyItems_error t e he])⟩
  | ok fields =>
    simp only [bind, Except.bind, List.isEmpty_nil, if_true]
    exact ⟨by trivial, Or.inl rfl⟩

/-- C9 (witness): the equality evaluated on a concrete transaction and
concrete collaborators: the empty-string delegate call returns the plain
hash. -/
theorem C9_empty_delegate_for_witness :
    txMinimal.get_signing_hash dummyCrypto (some []) =
      txMinimal.get_signing_hash dummyCrypto none :=
  (C9_empty_delegate_for dummyCrypto txMinimal).1

/-- C7 (counterexample): the claim as stated fails on the code: the
empty string is a supplied `delegate_for` that is not a well-formed
address, yet `get_signing_hash` raises nothing and returns the plain
hash, because the code tests the argument's truthiness. -/
theorem C7_counterexample :
    is_address [] = false ∧
    txPlain.get_signing_hash dummyCrypto (some []) ≠ .error .invalidDelegateAddress ∧
    txPlain.get_signing_hash dummyCrypto (some [])
      = txPlain.get_signing_hash dummyCrypto none := by
  refine ⟨rfl, by decide, by decide⟩

/-- C7 (amended): with no delegate (or no truthy delegate),
`get_signing_hash` returns the hash of the unsigned-schema encoding of
the canonicalized body dict, recomputed from the current body only (the
stored signature is irrelevant); when a NON-EMPTY `delegate_for` is
supplied it raises `InvalidDelegateAddress` if the string is not a
well-formed address, and otherwise returns
`Hash(plain_hash || raw bytes of the delegate address)`. -/
theorem C7_get_signing_hash (cr : Crypto) (t : Transaction) (fields : List Item)
    (henc : encodeBodyItems t = .ok fields) :
    t.get_signing_hash cr none = .ok (cr.blake2b256 [cr.rlpBytes (Item.list fields)]) ∧
    (∀ s1 s2 d, (Transaction.mk t.body s1).get_signing_hash cr d
        = (Transaction.mk t.body s2).get_signing_hash cr d) ∧
    (∀ d, d ≠ [] → is_address d = false →
      t.get_signing_hash cr (some d) = .error .invalidDelegateAddress) ∧
    (∀ d, d ≠ [] → is_address d = true →
      t.get_signing_hash cr (some d) = .ok (cr.blake2b256
        [cr.blake2b256 [cr.rlpBytes (Item.list fields)], (hexToBytes (d.drop 2)).getD []])) := by
  refine ⟨?_, ?_, ?_, ?_⟩
  · unfold Transaction.get_signing_hash
    rw [henc]
    simp [bind, Except.bind]
  · intro s1 s2 d
    rfl
  · intro d hne hbad
    unfold Transaction.get_signing_hash
    rw [henc]
    simp only [bind, Except.bind]
    rw [if_neg (by simp [List.isEmpty_iff, hne]), if_neg (by simp [hbad])]
  · intro d hne hgood
    unfold Transaction.get_signing_hash
    rw [henc]
    simp only [bind, Except.bind]
    rw [if_neg (by simp [List.isEmpty_iff, hne]), if_pos hgood]

/-- C7 (witness): the amended theorem evaluated on a concrete
transaction and collaborators, with the concrete valid address
`addr1`. -/
theorem C7_get_signing_hash_witness :
    txMinimal.get_signing_hash dummyCrypto none = .ok [] ∧
    txMinimal.get_signing_hash dummyCrypto (some addr1)
      = .ok ((hexToBytes (addr1.drop 2)).getD []) := by
  have h := C7_get_signing_hash dummyCrypto txMinimal
    [Item.bytes [1], Item.bytes [], Item.bytes [], Item.list [], Item.bytes [],
     Item.bytes [], Item.bytes [], Item.bytes [], Item.list []]
    rfl
  constructor
  · rw [h.1]; decide
  · rw [h.2.2.2 addr1 (by decide) (by decide)]; decide

/-! ### Recovery accessor lemmas -/

theorem signature_valid_none (t : Transaction) (h : t.signature = none) :
    t.signature_valid = false := by
  unfold Transaction.signature_valid
  rw [h]

theorem signature_valid_false_of_len (t : Transaction) (s : Bytes)
    (h : t.signature = some s)
    (hlen : s.length ≠ (if t.is_delegated then 130 else 65)) :
    t.signature_valid = false := by
  unfold Transaction.signature_valid
  rw [h]
  show (if s.isEmpty then false
    else s.length == (if t.is_delegated then 65 * 2 else 65)) = false
  by_cases hse : s.isEmpty
  · rw [if_pos hse]
  · rw [if_neg hse]
    simp only [beq_eq_false_iff_ne, ne_eq]
    intro hc
    apply hlen
    rw [hc]

theorem signature_valid_true_of_len (t : Transaction) (s : Bytes)
    (h : t.signature = some s) (hne : s ≠ [])
    (hlen : s.length = (if t.is_delegated then 130 else 65)) :
    t.signature_valid = true := by
  unfold Transaction.signature_valid
  rw [h]
  show (if s.isEmpty then false
    else s.length == (if t.is_delegated then 65 * 2 else 65)) = true
  rw [if_neg (by simp [List.isEmpty_iff, hne])]
  simp only [beq_iff_eq]
  rw [hlen]

theorem get_origin_invalid (t : Transaction) (cr : Crypto)
    (h : t.signature_valid = false) : t.get_origin cr = none := by
  unfold Transaction.get_origin
  simp [h]

theorem get_id_invalid (t : Transaction) (cr : Crypto)
    (h : t.signature_valid = false) : t.get_id cr = none := by
  unfold Transaction.get_id
  simp [h]

theorem get_delegator_invalid (t : Transaction) (cr : Crypto)
    (h : t.signature_valid = false) : t.get_delegator cr = none := by
  unfold Transaction.get_delegator
  by_cases hd : t.is_delegated = true <;> simp [h, hd]

theorem get_delegator_of_origin_none (t : Transaction) (cr : Crypto)
    (h : t.get_origin cr = none) : t.get_delegator cr = none := by
  unfold Transaction.get_delegator
  by_cases hd : t.is_delegated = true
  · by_cases hv : t.signature_valid = true
    · simp only [hd, hv, Bool.not_true, Bool.false_eq_true, if_false]
      rw [h]
    · have : t.signature_valid = false := by
        cases hb : t.signature_valid
        · rfl
        · exact absurd hb hv
      simp [this, hd]
  · have : t.is_delegated = false := by
      cases hb : t.is_delegated
      · rfl
      · exact absurd hb hd
    simp [this]

theorem get_origin_hash_error (t : Transaction) (cr : Crypto) (e : Err)
    (he : t.get_signing_hash cr none = .error e) : t.get_origin cr = none := by
  unfold Transaction.get_origin
  cases hv : t.signature_valid
  · simp
  · simp only [Bool.not_true, Bool.false_eq_true, if_false]
    rw [he]

theorem get_id_hash_error (t : Transaction) (cr : Crypto) (e : Err)
    (he : t.get_signing_hash cr none = .error e) : t.get_id cr = none := by
  unfold Transaction.get_id
  cases hv : t.signature_valid
  · simp
  · simp only [Bool.not_true, Bool.false_eq_true, if_false]
    rw [he]

theorem get_origin_recover_none (t : Transaction) (cr : Crypto) (h : Bytes)
    (hh : t.get_signing_hash cr none = .ok h)
    (hrec : cr.recover h ((t.signature.getD []).take 65) = none) :
    t.get_origin cr = none := by
  unfold Transaction.get_origin
  cases hv : t.signature_valid
  · simp
  · simp only [Bool.not_true, Bool.false_eq_true, if_false]
    simp only [hh, hrec]

theorem get_id_recover_none (t : Transaction) (cr : Crypto) (h : Bytes)
    (hh : t.get_signing_hash cr none = .ok h)
    (hrec : cr.recover h ((t.signature.getD []).take 65) = none) :
    t.get_id cr = none := by
  unfold Transaction.get_id
  cases hv : t.signature_valid
  · simp
  · simp only [Bool.not_true, Bool.false_eq_true, if_false]
    simp only [hh, hrec]

theorem get_origin_address_none (t : Transaction) (cr : Crypto) (h : Bytes) (pk : Bytes)
    (hh : t.get_signing_hash cr none = .ok h)
    (hrec : cr.recover h ((t.signature.getD []).take 65) = some pk)
    (haddr : cr.public_key_to_address pk = none) :
    t.get_origin cr = none := by
  unfold Transaction.get_origin
  cases hv : t.signature_valid
  · simp
  · simp only [Bool.not_true, Bool.false_eq_true, if_false]
    simp only [hh, hrec, haddr]

theorem get_id_address_none (t : Transaction) (cr : Crypto) (h : Bytes) (pk : Bytes)
    (hh : t.get_signing_hash cr none = .ok h)
    (hrec : cr.recover h ((t.signature.getD []).take 65) = some pk)
    (haddr : cr.public_key_to_address pk = none) :
    t.get_id cr = none := by
  unfold Transaction.get_id
  cases hv : t.signature_valid
  · simp
  · simp only [Bool.not_true, Bool.false_eq_true, if_false]
    simp only [hh, hrec, haddr]

theorem is_address_of_bytes (a : Bytes) (hlen : a.length = 20) (hvb : validBytes a) :
    is_address ('0' :: 'x' :: bytesToHex a) = true := by
  have h1 : (bytesToHex a).length = 40 := by rw [bytesToHex_length, hlen]
  have h2 := bytesToHex_all_hex a hvb
  show ((bytesToHex a).length == 40 && (bytesToHex a).all fun c => (hexVal c).isSome) = true
  rw [h1, h2]
  rfl

theorem get_signing_hash_ok_inv (t : Transaction) (cr : Crypto) (h : Bytes)
    (hh : t.get_signing_hash cr none = .ok h) :
    ∃ fields, encodeBodyItems t = .ok fields ∧
      h = cr.blake2b256 [cr.rlpBytes (Item.list fields)] := by
  unfold Transaction.get_signing_hash at hh
  cases he : encodeBodyItems t with
  | error e =>
    rw [he] at hh
    simp [bind, Except.bind] at hh
  | ok fields =>
    rw [he] at hh
    simp only [bind, Except.bind, Except.ok.injEq] at hh
    exact ⟨fields, rfl, hh.symm⟩

theorem get_signing_hash_delegate (t : Transaction) (cr : Crypto)
    (fields : List Item) (a : Bytes)
    (henc : encodeBodyItems t = .ok fields)
    (hlen : a.length = 20) (hvb : validBytes a) :
    t.get_signing_hash cr (some ('0' :: 'x' :: bytesToHex a)) =
      .ok (cr.blake2b256 [cr.blake2b256 [cr.rlpBytes (Item.list fields)], a]) := by
  unfold Transaction.get_signing_hash
  rw [henc]
  simp only [bind, Except.bind]
  rw [if_neg (by simp), if_pos (is_address_of_bytes a hlen hvb)]
  have : hexToBytes (('0' :: 'x' :: bytesToHex a).drop 2) = some a := by
    simp only [List.drop_succ_cons, List.drop_zero]
    exact hexToBytes_bytesToHex a hvb
  rw [this]
  rfl

theorem get_delegator_stage2_hash_error (t : Transaction) (cr : Crypto)
    (origin : List Char) (e2 : Err)
    (ho : t.get_origin cr = some origin)
    (he : t.get_signing_hash cr (some origin) = .error e2) :
    t.get_delegator cr = none := by
  unfold Transaction.get_delegator
  cases hd : t.is_delegated
  · simp
  · cases hv : t.signature_valid
    · simp
    · simp only [Bool.not_true, Bool.false_eq_true, if_false, ho, he]

theorem get_delegator_stage2_recover_none (t : Transaction) (cr : Crypto)
    (origin : List Char) (h2 : Bytes)
    (ho : t.get_origin cr = some origin)
    (hh2 : t.get_signing_hash cr (some origin) = .ok h2)
    (hrec2 : cr.recover h2 ((t.signature.getD []).drop 65) = none) :
    t.get_delegator cr = none := by
  unfold Transaction.get_delegator
  cases hd : t.is_delegated
  · simp
  · cases hv : t.signature_valid
    · simp
    · simp only [Bool.not_true, Bool.false_eq_true, if_false, ho, hh2, hrec2]

theorem get_delegator_stage2_address_none (t : Transaction) (cr : Crypto)
    (origin : List Char) (h2 pk2 : Bytes)
    (ho : t.get_origin cr = some origin)
    (hh2 : t.get_signing_hash cr (some origin) = .ok h2)
    (hrec2 : cr.recover h2 ((t.signature.getD []).drop 65) = some pk2)
    (haddr2 : cr.public_key_to_address pk2 = none) :
    t.get_delegator cr = none := by
  unfold Transaction.get_delegator
  cases hd : t.is_delegated
  · simp
  · cases hv : t.signature_valid
    · simp
    · simp only [Bool.not_true, Bool.false_eq_true, if_false, ho, hh2, hrec2, haddr2]

theorem get_origin_success (t : Transaction) (cr : Crypto) (s h pk a : Bytes)
    (hval : t.signature_valid = true) (hs : t.signature = some s)
    (hh : t.get_signing_hash cr none = .ok h)
    (hrec : cr.recover h (s.take 65) = some pk)
    (haddr : cr.public_key_to_address pk = some a) :
    t.get_origin cr = some ('0' :: 'x' :: bytesToHex a) := by
  unfold Transaction.get_origin
  simp only [hval, Bool.not_true, Bool.false_eq_true, if_false, hh, hs,
    Option.getD_some, hrec, haddr]

theorem get_id_success (t : Transaction) (cr : Crypto) (s h pk a : Bytes)
    (hval : t.signature_valid = true) (hs : t.signature = some s)
    (hh : t.get_signing_hash cr none = .ok h)
    (hrec : cr.recover h (s.take 65) = some pk)
    (haddr : cr.public_key_to_address pk = some a) :
    t.get_id cr = some ('0' :: 'x' :: bytesToHex (cr.blake2b256 [h, a])) := by
  unfold Transaction.get_id
  simp only [hval, Bool.not_true, Bool.false_eq_true, if_false, hh, hs,
    Option.getD_some, hrec, haddr]

theorem get_delegator_success (t : Transaction) (cr : Crypto)
    (s h pk1 a1 pk2 a2 : Bytes)
    (hd : t.is_delegated = true) (hval : t.signature_valid = true)
    (hs : t.signature = some s)
    (hh : t.get_signing_hash cr none = .ok h)
    (hrec1 : cr.recover h (s.take 65) = some pk1)
    (haddr1 : cr.public_key_to_address pk1 = some a1)
    (hlen1 : a1.length = 20) (hvb1 : validBytes a1)
    (hrec2 : cr.recover (cr.blake2b256 [h, a1]) (s.drop 65) = some pk2)
    (haddr2 : cr.public_key_to_address pk2 = some a2) :
    t.get_delegator cr = some ('0' :: 'x' :: bytesToHex a2) := by
  obtain ⟨fields, henc, hhe⟩ := get_signing_hash_ok_inv t cr h hh
  have horigin := get_origin_success t cr s h pk1 a1 hval hs hh hrec1 haddr1
  have hdel : t.get_signing_hash cr (some ('0' :: 'x' :: bytesToHex a1))
      = .ok (cr.blake2b256 [h, a1]) := by
    rw [get_signing_hash_delegate t cr fields a1 henc hlen1 hvb1, hhe]
  unfold Transaction.get_delegator
  simp only [hd, hval, Bool.not_true, Bool.false_eq_true, if_false, horigin, hdel,
    hs, Option.getD_some, hrec2, haddr2]

/-- C6: the recovery accessors `get_origin`, `get_delegator` and
`get_id` never propagate a failure: each is absent when the signature is
absent, when its length differs from the required one (130 bytes when
delegated, 65 otherwise), or when the encoding, any public-key recovery
or any address derivation inside them fails — including, for
`get_delegator`, the delegated-hash recomputation, the second recovery
on signature bytes `[65:130]` and the second address derivation; and
with a 130-byte two-signer signature on a delegated transaction for
which both recoveries succeed, `get_origin` is the first signer's
address and `get_delegator` the second's. -/
theorem C6_recovery_accessors (cr : Crypto) (t : Transaction) :
    (t.signature = none →
      t.get_origin cr = none ∧ t.get_delegator cr = none ∧ t.get_id cr = none) ∧
    (∀ s, t.signature = some s → s.length ≠ (if t.is_delegated then 130 else 65) →
      t.get_origin cr = none ∧ t.get_delegator cr = none ∧ t.get_id cr = none) ∧
    (∀ e, t.get_signing_hash cr none = .error e →
      t.get_origin cr = none ∧ t.get_delegator cr = none ∧ t.get_id cr = none) ∧
    (∀ h, t.get_signing_hash cr none = .ok h →
      cr.recover h ((t.signature.getD []).take 65) = none →
      t.get_origin cr = none ∧ t.get_delegator cr = none ∧ t.get_id cr = none) ∧
    (∀ h pk, t.get_signing_hash cr none = .ok h →
      cr.recover h ((t.signature.getD []).take 65) = some pk →
      cr.public_key_to_address pk = none →
      t.get_origin cr = none ∧ t.get_delegator cr = none ∧ t.get_id cr = none) ∧
    (∀ origin e2, t.get_origin cr = some origin →
      t.get_signing_hash cr (some origin) = .error e2 →
      t.get_delegator cr = none) ∧
    (∀ origin h2, t.get_origin cr = some origin →
      t.get_signing_hash cr (some origin) = .ok h2 →
      cr.recover h2 ((t.signature.getD []).drop 65) = none →
      t.get_delegator cr = none) ∧
    (∀ origin h2 pk2, t.get_origin cr = some origin →
      t.get_signing_hash cr (some origin) = .ok h2 →
      cr.recover h2 ((t.signature.getD []).drop 65) = some pk2 →
      cr.public_key_to_address pk2 = none →
      t.get_delegator cr = none) ∧
    (∀ s h pk1 a1 pk2 a2,
      t.is_delegated = true → t.signature = some s → s.length = 130 →
      t.get_signing_hash cr none = .ok h →
      cr.recover h (s.take 65) = some pk1 →
      cr.public_key_to_address pk1 = some a1 →
      a1.length = 20 → validBytes a1 →
      cr.recover (cr.blake2b256 [h, a1]) (s.drop 65) = some pk2 →
      cr.public_key_to_address pk2 = some a2 →
      t.get_origin cr = some ('0' :: 'x' :: bytesToHex a1) ∧
      t.get_delegator cr = some ('0' :: 'x' :: bytesToHex a2)) := by
  refine ⟨?_, ?_, ?_, ?_, ?_, ?_, ?_, ?_, ?_⟩
  · intro h
    have hv := signature_valid_none t h
    exact ⟨get_origin_invalid t cr hv, get_delegator_invalid t cr hv, get_id_invalid t cr hv⟩
  · intro s hs hlen
    have hv := signature_valid_false_of_len t s hs hlen
    exact ⟨get_origin_invalid t cr hv, get_delegator_invalid t cr hv, get_id_invalid t cr hv⟩
  · intro e he
    have ho := get_origin_hash_error t cr e he
    exact ⟨ho, get_delegator_of_origin_none t cr ho, get_id_hash_error t cr e he⟩
  · intro h hh hrec
    have ho := get_origin_recover_none t cr h hh hrec
    exact ⟨ho, get_delegator_of_origin_none t cr ho, get_id_recover_none t cr h hh hrec⟩
  · intro h pk hh hrec haddr
    have ho := get_origin_address_none t cr h pk hh hrec haddr
    exact ⟨ho, get_delegator_of_origin_none t cr ho,
      get_id_address_none t cr h pk hh hrec haddr⟩
  · intro origin e2 ho he
    exact get_delegator_stage2_hash_error t cr origin e2 ho he
  · intro origin h2 ho hh2 hrec2
    exact get_delegator_stage2_recover_none t cr origin h2 ho hh2 hrec2
  · intro origin h2 pk2 ho hh2 hrec2 haddr2
    exact get_delegator_stage2_address_none t cr origin h2 pk2 ho hh2 hrec2 haddr2
  · intro s h pk1 a1 pk2 a2 hd hs hlen hh hrec1 haddr1 hlen1 hvb1 hrec2 haddr2
    have hne : s ≠ [] := by
      intro hnil
      rw [hnil] at hlen
      simp at hlen
    have hv : t.signature_valid = true :=
      signature_valid_true_of_len t s hs hne (by rw [hlen, hd]; rfl)
    exact ⟨get_origin_success t cr s h pk1 a1 hv hs hh hrec1 haddr1,
      get_delegator_success t cr s h pk1 a1 pk2 a2 hd hv hs hh hrec1 haddr1
        hlen1 hvb1 hrec2 haddr2⟩

set_option maxRecDepth 10000 in
/-- C6 (witness): the accessor theorem evaluated with concrete
collaborators on a concrete delegated transaction with a 130-byte
two-part signature; on the same transaction with no signature; and,
with the collaborator whose address derivation rejects the second
recovered key, the second-stage derivation failure yielding an absent
delegator. -/
theorem C6_recovery_accessors_witness :
    txDelegated.get_origin dummyCrypto
        = some ('0' :: 'x' :: bytesToHex (List.replicate 20 7)) ∧
    txDelegated.get_delegator dummyCrypto
        = some ('0' :: 'x' :: bytesToHex (List.replicate 20 7)) ∧
    ({ body := txDelegated.body } : Transaction).get_origin dummyCrypto = none ∧
    txDelegated.get_delegator dummyCrypto2 = none := by
  have h := C6_recovery_accessors dummyCrypto txDelegated
  have h2 := (C6_recovery_accessors dummyCrypto { body := txDelegated.body }).1 rfl
  have hsucc := h.2.2.2.2.2.2.2.2 (List.replicate 130 7) [] (List.replicate 65 7)
    (List.replicate 20 7) (List.replicate 20 7 ++ List.replicate 65 7)
    (List.replicate 20 7)
    (by decide) rfl (by decide) (by decide) (by decide) (by decide)
    (by decide) (by decide) (by decide) (by decide)
  have hstage2 := (C6_recovery_accessors dummyCrypto2 txDelegated).2.2.2.2.2.2.2.1
    ('0' :: 'x' :: bytesToHex (List.replicate 20 7)) (List.replicate 20 7)
    (List.replicate 20 7 ++ List.replicate 65 7)
    (by decide) (by decide) (by decide) (by decide)
  exact ⟨hsucc.1, hsucc.2, h2.1, hstage2⟩

/-- C8: `get_id` is absent unless the signature is valid; with a valid
signature it recovers the origin exactly as `get_origin` does (recovery
from the first 65 signature bytes against the plain signing hash,
address derivation from the recovered key) and returns
`Hash(plain signing hash || origin address bytes)` rendered as a
lowercase `'0x'`-prefixed hex string; any recovery failure yields
absent; and two transactions built from identical body and identical
signature bytes produce identical results. -/
theorem C8_get_id (cr : Crypto) (t : Transaction) :
    (t.signature_valid = false → t.get_id cr = none) ∧
    (∀ h, t.get_signing_hash cr none = .ok h →
      cr.recover h ((t.signature.getD []).take 65) = none → t.get_id cr = none) ∧
    (∀ h pk, t.get_signing_hash cr none = .ok h →
      cr.recover h ((t.signature.getD []).take 65) = some pk →
      cr.public_key_to_address pk = none → t.get_id cr = none) ∧
    (∀ s h pk a, t.signature_valid = true → t.signature = some s →
      t.get_signing_hash cr none = .ok h →
      cr.recover h (s.take 65) = some pk →
      cr.public_key_to_address pk = some a →
      t.get_id cr = some ('0' :: 'x' :: bytesToHex (cr.blake2b256 [h, a]))) ∧
    (∀ t1 t2 : Transaction, t1.body = t2.body → t1.signature = t2.signature →
      t1.get_id cr = t2.get_id cr) := by
  refine ⟨?_, ?_, ?_, ?_, ?_⟩
  · exact fun hv => get_id_invalid t cr hv
  · exact fun h hh hrec => get_id_recover_none t cr h hh hrec
  · exact fun h pk hh hrec haddr => get_id_address_none t cr h pk hh hrec haddr
  · exact fun s h pk a hv hs hh hrec haddr => get_id_success t cr s h pk a hv hs hh hrec haddr
  · intro t1 t2 hb hsg
    cases t1
    cases t2
    simp only at hb hsg
    rw [hb, hsg]

set_option maxRecDepth 10000 in
/-- C8 (witness): `get_id` evaluated with concrete collaborators on a
concrete delegated transaction, and absence on an invalid (too-short)
signature. -/
theorem C8_get_id_witness :
    txDelegated.get_id dummyCrypto
      = some ('0' :: 'x' :: bytesToHex
          (dummyCrypto.blake2b256 [[], List.replicate 20 7])) ∧
    ({ body := txDelegated.body, signature := some [1, 2, 3] }
        : Transaction).get_id dummyCrypto = none := by
  have h := C8_get_id dummyCrypto txDelegated
  have hid := h.2.2.2.1 (List.replicate 130 7) [] (List.replicate 65 7)
    (List.replicate 20 7) (by decide) rfl (by decide) (by decide) (by decide)
  have h2 := (C8_get_id dummyCrypto
    { body := txDelegated.body, signature := some [1, 2, 3] }).1 (by decide)
  exact ⟨hid, h2⟩
